import Mathlib

/-!
Verification development for the grading-agent service.

This file shallowly embeds the data model and the pure core of the
TypeScript services under `src/` (score calculation, answer/score merging,
response parsing/validation, callback retry, batch-grading concurrency
control, student-answer recognition assembly) and proves properties of the
embedding.

Modelling conventions:
* TS `number` is modelled as `ℚ` (the code only performs exact
  arithmetic, `Math.min`/`Math.max`, and comparisons on these values).
* A TS `number | string` question identifier is the inductive `QNum`;
  JavaScript `===`/`Map`-key equality on such values is `DecidableEq QNum`
  (a number and a string are never equal, matching SameValueZero).
* JavaScript `String(x)` on a number is modelled by `jsNumToString`
  (sign, decimal integer part, decimal fraction digits); fuel bounds the
  fraction length, which is exact for all finite decimal fractions used.
* `String.prototype.localeCompare(_, undefined, {numeric: true})` is
  modelled by `localeCompareNumeric`: the string is split into maximal
  digit runs and single non-digit characters, digit runs compare by
  numeric value, other characters by code point, and a digit run sorts
  before a non-digit character; sequences compare lexicographically.
  This captures exactly the natural-order behaviour the code relies on
  ("13(1)" before "13(2)").
* The zh-CN collator used by `mergeScoreResults` is kept abstract: the
  definition takes the collator as a parameter `zhc`.
* Async behaviour is embedded by making the outcome of each awaited
  external operation an explicit parameter (a function from the call's
  position/argument to `Except String _`), and promise scheduling is
  modelled with tasks settling in start order.
-/

namespace GradingAgent

/-! ## Data model (src/common/types/region.ts, answer.ts,
    score-calculation.service.ts) -/

/-- A TS `number | string` question identifier. -/
inductive QNum where
  | num (q : ℚ)
  | str (s : String)
deriving DecidableEq

/-- `QuestionType` from region.ts: `'choice' | 'essay'`. -/
inductive QType where
  | choice
  | essay
deriving DecidableEq

/-- The `'choice' | 'fill' | 'essay'` kind carried by a graded question
(`QuestionScore.type` in score-calculation.service.ts). -/
inductive QKind where
  | choice
  | fill
  | essay
deriving DecidableEq

/-- `QuestionRegion` from region.ts (percentage bounding box). -/
structure QuestionRegion where
  type : QType
  x_min_percent : ℚ
  y_min_percent : ℚ
  x_max_percent : ℚ
  y_max_percent : ℚ
deriving DecidableEq

/-- `QuestionAnswer` from answer.ts. -/
structure QuestionAnswer where
  question_number : QNum
  answer : String
deriving DecidableEq

/-- `RegionAnswerResult` from answer.ts. -/
structure RegionAnswerResult where
  type : QType
  region : QuestionRegion
  questions : List QuestionAnswer
deriving DecidableEq

/-- `AnswerRecognitionResponse` from answer.ts. -/
structure AnswerRecognitionResponse where
  regions : List RegionAnswerResult
deriving DecidableEq

/-- `QuestionScore` from region.ts: a blank-sheet-declared score
(`{questionNumber, score}`). -/
structure ScoreEntry where
  questionNumber : QNum
  score : ℚ
deriving DecidableEq

/-- `RecognitionResult` from region.ts. -/
structure RecognitionResult where
  regions : List QuestionRegion
  scores : List ScoreEntry
  answers : Option AnswerRecognitionResponse
deriving DecidableEq

/-- `QuestionScore` from score-calculation.service.ts: one graded
question. -/
structure QuestionScoreResult where
  question_number : QNum
  type : QKind
  score : ℚ
  max_score : ℚ
  reason : Option String
deriving DecidableEq

/-- `ScoreCalculationResult` from score-calculation.service.ts.
JS objects have string keys, so the two score `Record`s are association
lists keyed by the stringified question number. -/
structure ScoreCalculationResult where
  questions : List QuestionScoreResult
  objectiveScores : List (String × (ℚ × ℚ))
  subjectiveScores : List (String × (ℚ × ℚ))
  totalScore : ℚ
  totalMaxScore : ℚ

/-! ## JS `String(number)` model -/

/-- Floor of a nonnegative rational as a natural number. -/
def ratFloorNat (q : ℚ) : Nat := q.num.toNat / q.den

/-- Decimal digits of the fractional part `f ∈ [0,1)`, with fuel bounding
the number of produced digits (exact for finite decimal fractions). -/
def fracDigits : Nat → ℚ → List Char
  | 0, _ => []
  | fuel + 1, f =>
    if f = 0 then []
    else
      let f10 := f * 10
      let d := ratFloorNat f10
      Char.ofNat (48 + d) :: fracDigits fuel (f10 - (d : ℚ))

/-- Model of JavaScript `String(x)` for a finite number `x`. -/
def jsNumToString (q : ℚ) : String :=
  let a : ℚ := if q < 0 then -q else q
  let ip : Nat := ratFloorNat a
  let ds := fracDigits 30 (a - (ip : ℚ))
  (if q < 0 then "-" else "") ++ toString ip ++
    (if ds.isEmpty then "" else "." ++ String.mk ds)

/-- JavaScript `String(x)` on a `number | string` value. -/
def jsToString : QNum → String
  | .num q => jsNumToString q
  | .str s => s

/-! ## `localeCompare(_, undefined, {numeric: true})` model -/

/-- A token of the natural-order comparison: a maximal digit run (by
numeric value) or a single non-digit character. -/
inductive NatTok where
  | num (n : Nat)
  | chr (c : Char)
deriving DecidableEq

/-- Three-way comparison of naturals. -/
def natCmp (a b : Nat) : Ordering :=
  if a < b then .lt else if b < a then .gt else .eq

/-- Token order: digit runs numerically, characters by code point, and a
digit run before a non-digit character. -/
def tokCmp : NatTok → NatTok → Ordering
  | .num a, .num b => natCmp a b
  | .chr a, .chr b => natCmp a.toNat b.toNat
  | .num _, .chr _ => .lt
  | .chr _, .num _ => .gt

/-- Lexicographic comparison of token sequences. -/
def lexCmp : List NatTok → List NatTok → Ordering
  | [], [] => .eq
  | [], _ :: _ => .lt
  | _ :: _, [] => .gt
  | a :: as, b :: bs =>
    match tokCmp a b with
    | .eq => lexCmp as bs
    | o => o

/-- Tokenizer: accumulates the numeric value of the current digit run. -/
def tokenizeAux : List Char → Option Nat → List NatTok
  | [], none => []
  | [], some n => [.num n]
  | c :: cs, acc =>
    if c.isDigit then
      tokenizeAux cs (some ((acc.getD 0) * 10 + (c.toNat - 48)))
    else
      match acc with
      | none => .chr c :: tokenizeAux cs none
      | some n => .num n :: .chr c :: tokenizeAux cs none

def tokenize (s : String) : List NatTok := tokenizeAux s.data none

def ordVal : Ordering → Int
  | .lt => -1
  | .eq => 0
  | .gt => 1

/-- Model of `a.localeCompare(b, undefined, {numeric: true})`. -/
def localeCompareNumeric (a b : String) : Int :=
  ordVal (lexCmp (tokenize a) (tokenize b))

/-! ## `compareQuestionNumbers` (score-calculation.service.ts, inside
`mergeAnswerRecognition`) -/

/-- The question-number comparator: numbers compare numerically
(`a - b`); every other pair compares as stringified values under the
numeric natural-order collation. -/
def compareQuestionNumbers (a b : QNum) : ℚ :=
  match a, b with
  | .num x, .num y => x - y
  | _, _ => ((localeCompareNumeric (jsToString a) (jsToString b) : Int) : ℚ)

/-! ## `mergeAnswerRecognition` (score-calculation.service.ts 361-485)

The JS code builds two insertion-ordered `Map`s in one pass over all
regions of all results; the two maps are updated independently, so they
are embedded as two folds over the corresponding occurrence lists. -/

def typeStr : QType → String
  | .choice => "choice"
  | .essay => "essay"

/-- The dedup key `` `${region.type}_${question.question_number}` ``. -/
def qkey (t : QType) (q : QNum) : String := typeStr t ++ "_" ++ jsToString q

/-- All `(key, (type, question))` occurrences, in iteration order. -/
def answerOccs (rs : List AnswerRecognitionResponse) :
    List (String × (QType × QuestionAnswer)) :=
  rs.flatMap fun res =>
    res.regions.flatMap fun reg =>
      reg.questions.map fun q =>
        (qkey reg.type q.question_number, (reg.type, q))

/-- `questionMap.set(key, v)` guarded by `!questionMap.has(key)`:
first occurrence wins. -/
def qmInsert (m : List (String × (QType × QuestionAnswer)))
    (e : String × (QType × QuestionAnswer)) :
    List (String × (QType × QuestionAnswer)) :=
  if m.any (fun p => p.1 == e.1) then m else m ++ [e]

def buildQuestionMap (rs : List AnswerRecognitionResponse) :
    List (String × (QType × QuestionAnswer)) :=
  (answerOccs rs).foldl qmInsert []

/-- All `(type, region)` occurrences, in iteration order. -/
def regionOccs (rs : List AnswerRecognitionResponse) :
    List (QType × QuestionRegion) :=
  rs.flatMap fun res => res.regions.map fun reg => (reg.type, reg.region)

/-- Axis-wise union of two choice boxes (the merged region's `type` is
hard-coded to `'choice'` in the source). -/
def unionBox (a b : QuestionRegion) : QuestionRegion :=
  { type := .choice
    x_min_percent := min a.x_min_percent b.x_min_percent
    y_min_percent := min a.y_min_percent b.y_min_percent
    x_max_percent := max a.x_max_percent b.x_max_percent
    y_max_percent := max a.y_max_percent b.y_max_percent }

/-- `regionMap` update: first occurrence stored; later `choice`
occurrences union the boxes; later `essay` occurrences are ignored. -/
def rmInsert (m : List (QType × QuestionRegion)) (e : QType × QuestionRegion) :
    List (QType × QuestionRegion) :=
  match m.find? (fun p => p.1 == e.1) with
  | none => m ++ [e]
  | some ex =>
    if e.1 == QType.choice then
      m.map fun p => if p.1 == QType.choice then (p.1, unionBox ex.2 e.2) else p
    else m

def buildRegionMap (rs : List AnswerRecognitionResponse) :
    List (QType × QuestionRegion) :=
  (regionOccs rs).foldl rmInsert []

/-- Question types in order of first occurrence (JS `Map` iteration order
of `questionsByType`). -/
def typesInOrder (l : List (QType × QuestionAnswer)) : List QType :=
  l.foldl (fun acc e => if acc.contains e.1 then acc else acc ++ [e.1]) []

/-- Questions stored under a given type, in insertion order. -/
def questionsOfType (l : List (QType × QuestionAnswer)) (t : QType) :
    List QuestionAnswer :=
  (l.filter (fun e => e.1 == t)).map (·.2)

/-- Boolean `≤` induced by the question-number comparator
(`sort((a, b) => compareQuestionNumbers(...))`). -/
def qaLe (a b : QuestionAnswer) : Bool :=
  compareQuestionNumbers a.question_number b.question_number ≤ 0

/-- `a.questions[0]?.question_number ?? 0`. -/
def firstQNum (r : RegionAnswerResult) : QNum :=
  ((r.questions.head?).map (·.question_number)).getD (.num 0)

def regionLe (a b : RegionAnswerResult) : Bool :=
  compareQuestionNumbers (firstQNum a) (firstQNum b) ≤ 0

/-- `mergeAnswerRecognition`: dedup questions by `(type, qnum)` key with
first-occurrence-wins, merge per-type regions, regroup by type, sort
questions within a type and regions by first question number.
(The source's `'fill'`-to-`'essay'` remapping of the key prefix is
vacuous here because `RegionAnswerResult.type` is only
`'choice' | 'essay'`.) -/
def mergeAnswerRecognition (rs : List AnswerRecognitionResponse) :
    AnswerRecognitionResponse :=
  let vals := (buildQuestionMap rs).map (·.2)
  let rm := buildRegionMap rs
  let mergedRegions : List RegionAnswerResult :=
    (typesInOrder vals).map fun t =>
      { type := t
        region := (((rm.find? (fun p => p.1 == t)).map (·.2)).getD
          { type := t, x_min_percent := 0, y_min_percent := 0
            x_max_percent := 100, y_max_percent := 100 })
        questions := (questionsOfType vals t).mergeSort qaLe }
  { regions := mergedRegions.mergeSort regionLe }

/-- The multiset of `(type, question)` entries of a recognition result
(the observable "question set" of the spec). -/
def entriesOf (a : AnswerRecognitionResponse) : List (QType × QuestionAnswer) :=
  a.regions.flatMap fun r => r.questions.map fun q => (r.type, q)

/-! ## `mergeScoreResults` (score-calculation.service.ts 493-606)

`zhc` is the abstract zh-CN collator backing
`aNum.localeCompare(bNum, 'zh-CN')`. -/

/-- The sort comparator of `mergeScoreResults`: numbers numerically,
strings by the zh-CN collator, numbers before strings. -/
def msCompare (zhc : String → String → Int) (a b : QNum) : ℚ :=
  match a, b with
  | .num x, .num y => x - y
  | .str x, .str y => ((zhc x y : Int) : ℚ)
  | .num _, .str _ => -1
  | .str _, .num _ => 1

def msLe (zhc : String → String → Int) (a b : QuestionScoreResult) : Bool :=
  msCompare zhc a.question_number b.question_number ≤ 0

/-- Dedup fold over all input questions: keep the first question per
`question_number` and accumulate `totalScore` over kept questions. -/
def msQStep (st : List QuestionScoreResult × ℚ) (q : QuestionScoreResult) :
    List QuestionScoreResult × ℚ :=
  if st.1.any (fun p => p.question_number == q.question_number) then st
  else (st.1 ++ [q], st.2 + q.score)

/-- `/^\d+$/.test(key) ? parseInt(key, 10) : key` on a JS object key. -/
def parseRecordKey (s : String) : QNum :=
  if s ≠ "" ∧ s.data.all Char.isDigit then
    .num ((s.data.foldl (fun a c => a * 10 + (c.toNat - 48)) 0 : Nat) : ℚ)
  else .str s

/-- First-wins key-wise merge of a score `Record` (keys re-parsed to
`number | string` and later written back as object keys). -/
def recMergeStep (m : List (QNum × (ℚ × ℚ))) (e : String × (ℚ × ℚ)) :
    List (QNum × (ℚ × ℚ)) :=
  let k := parseRecordKey e.1
  if m.any (fun p => p.1 == k) then m else m ++ [(k, e.2)]

def mergeRecords (rs : List (List (String × (ℚ × ℚ)))) :
    List (String × (ℚ × ℚ)) :=
  ((rs.flatMap id).foldl recMergeStep []).map fun p => (jsToString p.1, p.2)

/-- `mergeScoreResults`: union of `questions` keyed by `question_number`
(first wins), score records merged key-wise (first wins), `totalScore`
accumulated over the deduplicated questions, `totalMaxScore` recomputed
over the sorted deduplicated questions. -/
def mergeScoreResults (zhc : String → String → Int)
    (results : List ScoreCalculationResult) : ScoreCalculationResult :=
  let st := (results.flatMap (·.questions)).foldl msQStep ([], 0)
  let questions := st.1.mergeSort (msLe zhc)
  { questions := questions
    objectiveScores := mergeRecords (results.map (·.objectiveScores))
    subjectiveScores := mergeRecords (results.map (·.subjectiveScores))
    totalScore := st.2
    totalMaxScore := questions.foldl (fun s q => s + q.max_score) 0 }

/-! ## `parseScoreResponse` / `calculateScores`
(score-calculation.service.ts 90-165, 272-353)

The embedding starts from the JSON-parsed `questions` array (entries
whose `question_number`/`score`/`max_score` already passed the `typeof`
checks; ill-typed entries are filtered out by the same filter and carry
no information for the claims). -/

/-- One entry of the grading model's parsed `questions` array. -/
structure RawGradedQuestion where
  question_number : QNum
  type : Option QKind
  score : ℚ
  max_score : ℚ
  reason : Option String
deriving DecidableEq

/-- `new Map(scores.map(s => [s.questionNumber, s.score])).get(k)`:
the last entry for a key wins. -/
def scoresMapGet (scores : List ScoreEntry) (k : QNum) : Option ℚ :=
  scores.foldl (fun acc e => if e.questionNumber == k then some e.score else acc)
    none

/-- The filter+map post-processing of `parseScoreResponse`: drop entries
with negative score, override `max_score` by the blank-sheet value when
one exists, clamp `score` to the corrected maximum. -/
def parseScoreResponse (blankScores : List ScoreEntry)
    (qs : List RawGradedQuestion) : List QuestionScoreResult :=
  (qs.filter fun q => 0 ≤ q.score).map fun q =>
    let correctMaxScore := (scoresMapGet blankScores q.question_number).getD
      q.max_score
    { question_number := q.question_number
      type := q.type.getD .choice
      score := min q.score correctMaxScore
      max_score := correctMaxScore
      reason := q.reason }

/-- `obj[k] = v` on a string-keyed record: replace or append. -/
def recordSet (r : List (String × (ℚ × ℚ))) (k : String) (v : ℚ × ℚ) :
    List (String × (ℚ × ℚ)) :=
  if r.any (fun p => p.1 == k) then
    r.map fun p => if p.1 == k then (k, v) else p
  else r ++ [(k, v)]

/-- `calculateScores` after the model invocation: parse and post-process
the model's verdict, then classify into objective/subjective records and
accumulate the totals. -/
def calculateScores (blank : RecognitionResult)
    (parsedQuestions : List RawGradedQuestion) : ScoreCalculationResult :=
  let questions := parseScoreResponse blank.scores parsedQuestions
  let step := fun (st : (List (String × (ℚ × ℚ)) × List (String × (ℚ × ℚ))) × (ℚ × ℚ))
      (q : QuestionScoreResult) =>
    let totals := (st.2.1 + q.score, st.2.2 + q.max_score)
    match q.type with
    | .choice => ((recordSet st.1.1 (jsToString q.question_number)
        (q.score, q.max_score), st.1.2), totals)
    | .fill => ((recordSet st.1.1 (jsToString q.question_number)
        (q.score, q.max_score), st.1.2), totals)
    | .essay => ((st.1.1, recordSet st.1.2 (jsToString q.question_number)
        (q.score, q.max_score)), totals)
  let st := questions.foldl step (([], []), (0, 0))
  { questions := questions
    objectiveScores := st.1.1
    subjectiveScores := st.1.2
    totalScore := st.2.1
    totalMaxScore := st.2.2 }

/-! ## Response Parser validators (response-parser.service.ts and the
legacy qwen-vl.service.ts) -/

/-- JavaScript whitespace for the purposes of `String.prototype.trim`. -/
def isJsWhitespace (c : Char) : Bool :=
  c == ' ' || c == '\t' || c == '\n' || c == '\r'

/-- Model of `s.trim()`. -/
def jsTrim (s : String) : String :=
  ⟨((s.data.dropWhile isJsWhitespace).reverse.dropWhile isJsWhitespace).reverse⟩

/-- A score entry as seen by the validators, after the `typeof` checks
(`questionNumber` is a number or a string, `score` is a number; entries
of any other shape are rejected by both validators before these rules
apply and are outside the embedded input space). -/
structure RawScore where
  questionNumber : QNum
  score : ℚ
deriving DecidableEq

/-- Whether a rational is a JS integer (`Number.isInteger`). -/
def isJsInteger (q : ℚ) : Bool := q.den == 1

namespace ResponseParserService

/-- `validateScore` of the later `ResponseParserService`
(src/unnamed/part_005, lines 276-312): `questionNumber` may be a positive
integer or a non-empty trimmed string, `score` must be strictly
positive. -/
def validateScore (s : RawScore) : Bool :=
  (match s.questionNumber with
    | .num q => !(q ≤ 0 || !isJsInteger q)
    | .str t => !((jsTrim t).length == 0)) &&
  !(s.score ≤ 0)

end ResponseParserService

namespace QwenVLService

/-- `validateScore` of the legacy `QwenVLService`
(src/src/recognition/services/qwen-vl.service.ts, lines 328-351):
`questionNumber` must be a number, a positive integer; `score` strictly
positive. -/
def validateScore (s : RawScore) : Bool :=
  (match s.questionNumber with
    | .num q => !(q ≤ 0 || !isJsInteger q)
    | .str _ => false) &&
  !(s.score ≤ 0)

end QwenVLService

/-! ## Region validation and expansion (response-parser.service.ts) -/

/-- A region entry as parsed from JSON, before validation: the `type`
field is an arbitrary string and each coordinate is a number (`some`) or
a value of any other type (`none`). -/
structure RawRegion where
  type : String
  x_min_percent : Option ℚ
  y_min_percent : Option ℚ
  x_max_percent : Option ℚ
  y_max_percent : Option ℚ
deriving DecidableEq

/-- `validateRegion` (src/unnamed/part_005, lines 229-271). -/
def validateRegion (r : RawRegion) : Bool :=
  match r.x_min_percent, r.y_min_percent, r.x_max_percent, r.y_max_percent with
  | some a, some b, some c, some d =>
    (r.type == "choice" || r.type == "essay") &&
    (0 ≤ a && a ≤ 100) && (0 ≤ b && b ≤ 100) &&
    (0 ≤ c && c ≤ 100) && (0 ≤ d && d ≤ 100) &&
    !(c ≤ a) && !(d ≤ b)
  | _, _, _, _ => false

/-- Conversion of a validated raw region to a typed `QuestionRegion`
(total on regions accepted by `validateRegion`). -/
def toQuestionRegion (r : RawRegion) : Option QuestionRegion :=
  match r.x_min_percent, r.y_min_percent, r.x_max_percent, r.y_max_percent with
  | some a, some b, some c, some d =>
    if r.type == "choice" then
      some { type := .choice, x_min_percent := a, y_min_percent := b
             x_max_percent := c, y_max_percent := d }
    else if r.type == "essay" then
      some { type := .essay, x_min_percent := a, y_min_percent := b
             x_max_percent := c, y_max_percent := d }
    else none
  | _, _, _, _ => none

/-- `expandRegionCoordinates` (src/unnamed/part_005, lines 214-222):
every edge moved outward by 2 percentage points, clamped to [0,100]. -/
def expandRegionCoordinates (region : QuestionRegion) : QuestionRegion :=
  { region with
    x_min_percent := max 0 (region.x_min_percent - 2)
    y_min_percent := max 0 (region.y_min_percent - 2)
    x_max_percent := min 100 (region.x_max_percent + 2)
    y_max_percent := min 100 (region.y_max_percent + 2) }

/-- The region pipeline of `parseResponse` on a recovered JSON object
(src/unnamed/part_005, lines 69-99): filter by `validateRegion`, then
expand each surviving region. The `filter`-then-`map` of the source is
fused into one `filterMap`; `toQuestionRegion` succeeds exactly on
validated regions. -/
def parseResponseRegions (regions : List RawRegion) : List QuestionRegion :=
  ((regions.filter validateRegion).filterMap toQuestionRegion).map
    expandRegionCoordinates

/-! ## `sendCallback` (callback.service.ts 37-99)

`attemptResult i` is the outcome of the `i`-th (0-based) POST attempt:
`ok` for a 2xx response, `error msg` for a thrown network error or the
`Callback failed with status ...` error built from a non-2xx status. -/

deriving instance DecidableEq for Except

/-- The observable outcome of one `sendCallback` call. -/
structure SendRun where
  attempts : Nat
  delaysMs : List Nat
  outcome : Except String Unit
deriving DecidableEq

/-- The retry loop body: `attempt` is the current 0-based attempt index,
`remaining` the number of retries still allowed (initially `retries`,
so that `attempt + remaining = retries` throughout). On a final-attempt
failure the raised message wraps the last error's message. -/
def sendCallbackGo (f : Nat → Except String Unit) (retries : Nat) :
    Nat → Nat → List Nat → SendRun
  | attempt, 0, delays =>
    match f attempt with
    | .ok _ => { attempts := attempt + 1, delaysMs := delays, outcome := .ok () }
    | .error m =>
      { attempts := attempt + 1
        delaysMs := delays
        outcome := .error ("Callback failed after " ++ toString (retries + 1)
          ++ " attempts: " ++ m) }
  | attempt, r + 1, delays =>
    match f attempt with
    | .ok _ => { attempts := attempt + 1, delaysMs := delays, outcome := .ok () }
    | .error _ =>
      sendCallbackGo f retries (attempt + 1) r (delays ++ [2 ^ attempt * 1000])

/-- `sendCallback(url, data, retries)`: up to `retries + 1` attempts with
exponential backoff, returning on the first success. -/
def sendCallback (f : Nat → Except String Unit) (retries : Nat) : SendRun :=
  sendCallbackGo f retries 0 retries []

/-! ## `processWithConcurrencyLimit` and `gradeBatch`
(src/unnamed/part_008)

Each task's eventual outcome is given up front; promises are modelled as
settling in the order the tasks were started (each task body is a chain
of awaited calls, so an earlier-started task settles no later than a
later-started one under this schedule).  A resolved head of `executing`
is spliced out by its `.then` callback; a rejected promise makes the
pending `Promise.race` (and the final `Promise.all`) reject, which the
function does not catch. -/

/-- The observable outcome of one `processWithConcurrencyLimit` call:
how many tasks were ever started, and whether the awaited pool promise
rejected (carrying the first rejection reason) or resolved. -/
structure PoolRun where
  startedCount : Nat
  outcome : Except String Unit
deriving DecidableEq

/-- The worker-pool loop: start each task in order; once `limit` promises
are in flight, await `Promise.race` (the earliest-started in-flight
promise settles first under the in-order schedule; a rejection is not
caught and aborts the loop). After the loop, `Promise.all` rejects if
any remaining promise rejected. -/
def poolGo (limit : Nat) :
    List (Except String Unit) → List (Except String Unit) → Nat → PoolRun
  | [], executing, started =>
    { startedCount := started
      outcome := match executing.findSome?
          (fun t => match t with | .error m => some m | .ok _ => none) with
        | some m => .error m
        | none => .ok () }
  | t :: rest, executing, started =>
    let executing' := executing ++ [t]
    if executing'.length ≥ limit then
      match executing' with
      | [] => poolGo limit rest [] (started + 1)
      | e :: es =>
        match e with
        | .error m => { startedCount := started + 1, outcome := .error m }
        | .ok _ => poolGo limit rest es (started + 1)
    else poolGo limit rest executing' (started + 1)

def processWithConcurrencyLimit (tasks : List (Except String Unit))
    (limit : Nat) : PoolRun :=
  poolGo limit tasks [] 0

/-- A callback attempt observable at the `gradeBatch` level. -/
inductive CbEvent where
  | completedRun (gradingSheetId : Nat)
  | failedAttempt (gradingSheetId : Nat) (failureReason : String)
deriving DecidableEq

/-- The per-sheet task body of `gradeBatch`: on success `gradeSheet` ran
to completion (including its own completion-callback attempt, whose
failure it swallows); on failure the task attempts one `failed`-status
callback carrying the sheet id and the error message (swallowing a
callback failure), then re-throws. Returns the emitted events and the
task's promise outcome. -/
def gradeBatchTask (sheet : Nat × Except String Unit) :
    List CbEvent × Except String Unit :=
  match sheet.2 with
  | .ok _ => ([.completedRun sheet.1], .ok ())
  | .error m => ([.failedAttempt sheet.1 m], .error m)

/-- `gradeBatch`: run all sheet tasks under the concurrency limit.
Returns the callback events emitted by the tasks that were started
(started tasks run to completion even if the pool await has already
rejected) and the outcome of `await processWithConcurrencyLimit(...)`. -/
def gradeBatch (sheets : List (Nat × Except String Unit)) (limit : Nat) :
    List CbEvent × PoolRun :=
  let run := processWithConcurrencyLimit
    (sheets.map fun s => (gradeBatchTask s).2) limit
  ((sheets.take run.startedCount).flatMap fun s => (gradeBatchTask s).1, run)

/-- The sheet id a callback event refers to. -/
def cbId : CbEvent → Nat
  | .completedRun i => i
  | .failedAttempt i _ => i

/-! ## `recognizeStudentAnswers` (recognition.service.ts 221-329)

`choiceOutcome i` is the outcome of crop+recognize for the `i`-th choice
region; `essayOutcome` is the outcome of the concurrent full-image
recognition with choice questions excluded. `Promise.all` preserves the
positional order of its input array, so the assembled result does not
depend on which branch settled first. -/

/-- The choice branch: one entry per choice region, with an empty
`questions` array when that region's branch failed. -/
def choiceBranchResults (blank : RecognitionResult)
    (choiceOutcome : Nat → Except String (List QuestionAnswer)) :
    List RegionAnswerResult :=
  ((blank.regions.filter (fun r => r.type == QType.choice)).enum).map
    fun ri =>
      match choiceOutcome ri.1 with
      | .ok qs => { type := .choice, region := ri.2, questions := qs }
      | .error _ => { type := .choice, region := ri.2, questions := [] }

/-- The essay branch: the essay regions of the full-image recognition,
or the empty list when that branch failed. -/
def essayBranchResults
    (essayOutcome : Except String AnswerRecognitionResponse) :
    List RegionAnswerResult :=
  match essayOutcome with
  | .ok full => full.regions.filter (fun r => r.type == QType.essay)
  | .error _ => []

/-- `recognizeStudentAnswers`: choice-branch results concatenated before
essay-branch results. -/
def recognizeStudentAnswers (blank : RecognitionResult)
    (choiceOutcome : Nat → Except String (List QuestionAnswer))
    (essayOutcome : Except String AnswerRecognitionResponse) :
    AnswerRecognitionResponse :=
  { regions := choiceBranchResults blank choiceOutcome ++
      essayBranchResults essayOutcome }

/-! ## Theorems -/

/-! ### C3: relaxed vs. strict score validator -/

/-- C3 (counterexample): the relaxed `ResponseParserService.validateScore`
rejects a zero score even for a perfectly valid question number, contrary
to the claim that every entry with a valid `questionNumber` and
`score = 0` is accepted. -/
theorem C3_counterexample :
    ResponseParserService.validateScore
      { questionNumber := .num 1, score := 0 } = false := by
  decide

lemma posInt_char (q : ℚ) :
    (!(q ≤ 0 || !isJsInteger q)) = true ↔ ∃ n : ℕ, 0 < n ∧ q = (n : ℚ) := by
  constructor
  · intro h
    simp only [Bool.not_eq_true', Bool.or_eq_false_iff, decide_eq_false_iff_not,
      Bool.not_eq_false, not_le] at h
    obtain ⟨hpos, hint⟩ := h
    have hden : q.den = 1 := by simpa [isJsInteger] using hint
    have hq : (q.num : ℚ) = q := (Rat.den_eq_one_iff q).mp hden
    refine ⟨q.num.toNat, ?_, ?_⟩
    · have : 0 < q.num := Rat.num_pos.mpr hpos
      omega
    · have : 0 < q.num := Rat.num_pos.mpr hpos
      rw [← hq]
      norm_cast
      omega
  · rintro ⟨n, hn, rfl⟩
    simp only [Bool.not_eq_true', Bool.or_eq_false_iff, decide_eq_false_iff_not,
      Bool.not_eq_false, not_le]
    constructor
    · positivity
    · simp [isJsInteger, Rat.den_natCast]

lemma trim_nonempty_char (t : String) :
    (!((jsTrim t).length == 0)) = true ↔ jsTrim t ≠ "" := by
  have hlen : (jsTrim t).length = (jsTrim t).data.length := rfl
  constructor
  · intro h he
    simp [he] at h
  · intro h
    simp only [Bool.not_eq_true', beq_eq_false_iff_ne, ne_eq]
    intro hz
    apply h
    have : (jsTrim t).data = [] := List.length_eq_zero.mp (hlen ▸ hz)
    cases hjs : jsTrim t with
    | mk l => simp_all

/-- C3 (amended): the relaxed `ResponseParserService.validateScore`
accepts exactly the entries whose `questionNumber` is a positive integer
or a non-empty trimmed string and whose `score` is strictly positive
(zero scores are still rejected), while the strict legacy
`QwenVLService.validateScore` additionally requires the `questionNumber`
to be a number. -/
theorem C3_theorem (e : RawScore) :
    (ResponseParserService.validateScore e = true ↔
      ((∃ n : ℕ, 0 < n ∧ e.questionNumber = .num (n : ℚ)) ∨
        (∃ s, e.questionNumber = .str s ∧ jsTrim s ≠ "")) ∧ 0 < e.score) ∧
    (QwenVLService.validateScore e = true ↔
      (∃ n : ℕ, 0 < n ∧ e.questionNumber = .num (n : ℚ)) ∧ 0 < e.score) := by
  obtain ⟨qn, sc⟩ := e
  constructor
  · cases qn with
    | num q =>
      simp only [ResponseParserService.validateScore, Bool.and_eq_true,
        posInt_char]
      constructor
      · rintro ⟨⟨n, hn, rfl⟩, hsc⟩
        refine ⟨Or.inl ⟨n, hn, rfl⟩, ?_⟩
        simpa using hsc
      · rintro ⟨h, hsc⟩
        refine ⟨?_, by simpa using hsc⟩
        rcases h with ⟨n, hn, he⟩ | ⟨s, he, _⟩
        · exact ⟨n, hn, by injection he⟩
        · exact absurd he (by simp)
    | str s =>
      simp only [ResponseParserService.validateScore, Bool.and_eq_true,
        trim_nonempty_char]
      constructor
      · rintro ⟨ht, hsc⟩
        exact ⟨Or.inr ⟨s, rfl, ht⟩, by simpa using hsc⟩
      · rintro ⟨h, hsc⟩
        refine ⟨?_, by simpa using hsc⟩
        rcases h with ⟨n, _, he⟩ | ⟨t, he, ht⟩
        · exact absurd he (by simp)
        · injection he with he'
          exact he' ▸ ht
  · cases qn with
    | num q =>
      simp only [QwenVLService.validateScore, Bool.and_eq_true, posInt_char]
      constructor
      · rintro ⟨⟨n, hn, rfl⟩, hsc⟩
        exact ⟨⟨n, hn, rfl⟩, by simpa using hsc⟩
      · rintro ⟨⟨n, hn, he⟩, hsc⟩
        exact ⟨⟨n, hn, by injection he⟩, by simpa using hsc⟩
    | str s =>
      simp only [QwenVLService.validateScore]
      constructor
      · simp
      · rintro ⟨⟨n, _, he⟩, _⟩
        exact absurd he (by simp)

/-! ### C5: `sendCallback` retry behaviour -/

lemma sendCallbackGo_attempts_le (f : Nat → Except String Unit)
    (retries : Nat) :
    ∀ remaining attempt delays,
      (sendCallbackGo f retries attempt remaining delays).attempts ≤
        attempt + remaining + 1 := by
  intro remaining
  induction remaining with
  | zero =>
    intro attempt delays
    cases h : f attempt with
    | ok u => simp [sendCallbackGo, h]
    | error m => simp [sendCallbackGo, h]
  | succ r ih =>
    intro attempt delays
    cases h : f attempt with
    | ok u => simp [sendCallbackGo, h]
    | error m =>
      have := ih (attempt + 1) (delays ++ [2 ^ attempt * 1000])
      simp only [sendCallbackGo, h]
      omega

lemma sendCallbackGo_success (f : Nat → Except String Unit) (retries : Nat) :
    ∀ k remaining attempt delays, k ≤ remaining →
      (∀ j, j < k → ∃ m, f (attempt + j) = .error m) →
      f (attempt + k) = .ok () →
      sendCallbackGo f retries attempt remaining delays =
        { attempts := attempt + k + 1
          delaysMs := delays ++ (List.range k).map (fun j => 2 ^ (attempt + j) * 1000)
          outcome := .ok () } := by
  intro k
  induction k with
  | zero =>
    intro remaining attempt delays _ _ hok
    simp only [Nat.add_zero] at hok
    cases remaining <;> simp [sendCallbackGo, hok]
  | succ k ih =>
    intro remaining attempt delays hle hfail hok
    obtain ⟨m, hm⟩ := hfail 0 (Nat.succ_pos k)
    simp only [Nat.add_zero] at hm
    obtain ⟨r, rfl⟩ : ∃ r, remaining = r + 1 := ⟨remaining - 1, by omega⟩
    have hrec := ih r (attempt + 1) (delays ++ [2 ^ attempt * 1000])
      (by omega)
      (fun j hj => by
        have := hfail (j + 1) (by omega)
        simpa [Nat.add_assoc, Nat.add_comm 1 j] using this)
      (by
        have : attempt + 1 + k = attempt + (k + 1) := by omega
        rw [this]
        exact hok)
    rw [show sendCallbackGo f retries attempt (r + 1) delays =
      sendCallbackGo f retries (attempt + 1) r (delays ++ [2 ^ attempt * 1000])
      from by rw [sendCallbackGo, hm]]
    rw [hrec]
    have hmap : (List.range k).map (fun j => 2 ^ (attempt + 1 + j) * 1000) =
        (List.range k).map ((fun j => 2 ^ (attempt + j) * 1000) ∘ Nat.succ) := by
      refine List.map_congr_left ?_
      intro j _
      simp only [Function.comp_apply]
      congr 2
      omega
    have hdel : (delays ++ [2 ^ attempt * 1000]) ++
        (List.range k).map (fun j => 2 ^ (attempt + 1 + j) * 1000) =
        delays ++ (List.range (k + 1)).map (fun j => 2 ^ (attempt + j) * 1000) := by
      rw [List.append_assoc, List.range_succ_eq_map, List.map_cons, List.map_map,
        ← hmap]
      simp
    rw [hdel]
    have hatt : attempt + 1 + k + 1 = attempt + (k + 1) + 1 := by omega
    rw [hatt]

lemma sendCallbackGo_allfail (f : Nat → Except String Unit) (retries : Nat) :
    ∀ remaining attempt delays m,
      (∀ j, j < remaining → ∃ m', f (attempt + j) = .error m') →
      f (attempt + remaining) = .error m →
      sendCallbackGo f retries attempt remaining delays =
        { attempts := attempt + remaining + 1
          delaysMs := delays ++
            (List.range remaining).map (fun j => 2 ^ (attempt + j) * 1000)
          outcome := .error ("Callback failed after " ++ toString (retries + 1)
            ++ " attempts: " ++ m) } := by
  intro remaining
  induction remaining with
  | zero =>
    intro attempt delays m _ hm
    simp only [Nat.add_zero] at hm
    simp [sendCallbackGo, hm]
  | succ r ih =>
    intro attempt delays m hfail hm
    obtain ⟨m0, hm0⟩ := hfail 0 (Nat.succ_pos r)
    simp only [Nat.add_zero] at hm0
    have hrec := ih (attempt + 1) (delays ++ [2 ^ attempt * 1000]) m
      (fun j hj => by
        have := hfail (j + 1) (by omega)
        simpa [Nat.add_assoc, Nat.add_comm 1 j] using this)
      (by
        have : attempt + 1 + r = attempt + (r + 1) := by omega
        rw [this]
        exact hm)
    rw [show sendCallbackGo f retries attempt (r + 1) delays =
      sendCallbackGo f retries (attempt + 1) r (delays ++ [2 ^ attempt * 1000])
      from by rw [sendCallbackGo, hm0]]
    rw [hrec]
    have hmap : (List.range r).map (fun j => 2 ^ (attempt + 1 + j) * 1000) =
        (List.range r).map ((fun j => 2 ^ (attempt + j) * 1000) ∘ Nat.succ) := by
      refine List.map_congr_left ?_
      intro j _
      simp only [Function.comp_apply]
      congr 2
      omega
    have hdel : (delays ++ [2 ^ attempt * 1000]) ++
        (List.range r).map (fun j => 2 ^ (attempt + 1 + j) * 1000) =
        delays ++ (List.range (r + 1)).map (fun j => 2 ^ (attempt + j) * 1000) := by
      rw [List.append_assoc, List.range_succ_eq_map, List.map_cons, List.map_map,
        ← hmap]
      simp
    rw [hdel]
    have hatt : attempt + 1 + r + 1 = attempt + (r + 1) + 1 := by omega
    rw [hatt]

/-- C5: `sendCallback` performs at most `retries + 1` attempts; it stops
with a success immediately after the first attempt with a 2xx status,
waiting `2^j * 1000` ms after each failed non-final attempt `j`; and when
all `retries + 1` attempts fail it raises an error whose message extends
the last attempt's error message. -/
theorem C5_theorem (f : Nat → Except String Unit) (retries : Nat) :
    (sendCallback f retries).attempts ≤ retries + 1 ∧
    (∀ i, i ≤ retries → f i = .ok () → (∀ j, j < i → ∃ m, f j = .error m) →
      sendCallback f retries =
        { attempts := i + 1
          delaysMs := (List.range i).map (fun j => 2 ^ j * 1000)
          outcome := .ok () }) ∧
    (∀ m, (∀ j, j < retries → ∃ m', f j = .error m') →
      f retries = .error m →
      sendCallback f retries =
        { attempts := retries + 1
          delaysMs := (List.range retries).map (fun j => 2 ^ j * 1000)
          outcome := .error ("Callback failed after " ++ toString (retries + 1)
            ++ " attempts: " ++ m) }) := by
  refine ⟨?_, ?_, ?_⟩
  · have := sendCallbackGo_attempts_le f retries retries 0 []
    simpa [sendCallback] using this
  · intro i hi hok hfail
    have := sendCallbackGo_success f retries i retries 0 [] hi
      (fun j hj => by simpa using hfail j hj) (by simpa using hok)
    simpa [sendCallback] using this
  · intro m hfail hm
    have := sendCallbackGo_allfail f retries retries 0 [] m
      (fun j hj => by simpa using hfail j hj) (by simpa using hm)
    simpa [sendCallback] using this

/-- C5 witness: a target failing twice then succeeding on the third
attempt yields exactly 3 attempts, backoff waits of 1s then 2s, and no
error raised. -/
theorem C5_witness :
    sendCallback (fun n => if n < 2 then .error "boom" else .ok ()) 3 =
      { attempts := 3, delaysMs := [1000, 2000], outcome := .ok () } := by
  have h := (C5_theorem (fun n => if n < 2 then .error "boom" else .ok ()) 3).2.1
    2 (by omega) (by simp)
    (fun j hj => ⟨"boom", by simp [hj]⟩)
  rw [h]
  rfl

/-! ### C9: `recognizeStudentAnswers` failure isolation and ordering -/

/-- C9: the student-answer recognition result is always the choice-branch
results concatenated before the essay-branch results (`Promise.all`
preserves positional order, so this does not depend on which branch
settled first); a failed choice-region branch still contributes an entry
with an empty `questions` array for exactly that region and the call does
not abort; a failed essay branch leaves the essay portion empty. -/
theorem C9_theorem (blank : RecognitionResult)
    (co : Nat → Except String (List QuestionAnswer))
    (eo : Except String AnswerRecognitionResponse) :
    (recognizeStudentAnswers blank co eo).regions =
      choiceBranchResults blank co ++ essayBranchResults eo ∧
    (∀ i r m,
      (blank.regions.filter (fun r => r.type == QType.choice))[i]? = some r →
      co i = .error m →
      { type := QType.choice, region := r, questions := [] } ∈
        (recognizeStudentAnswers blank co eo).regions) ∧
    (∀ m, eo = .error m →
      (recognizeStudentAnswers blank co eo).regions =
        choiceBranchResults blank co) := by
  refine ⟨rfl, ?_, ?_⟩
  · intro i r m hget hco
    have henum : (i, r) ∈
        (blank.regions.filter (fun r => r.type == QType.choice)).enum := by
      rw [List.mem_iff_getElem?]
      exact ⟨i, by rw [List.getElem?_enum, hget]; rfl⟩
    have hmem : { type := QType.choice, region := r, questions := [] } ∈
        choiceBranchResults blank co := by
      unfold choiceBranchResults
      refine List.mem_map.mpr ⟨(i, r), henum, ?_⟩
      simp only [hco]
    show _ ∈ choiceBranchResults blank co ++ essayBranchResults eo
    exact List.mem_append.mpr (Or.inl hmem)
  · intro m hm
    show choiceBranchResults blank co ++ essayBranchResults eo = _
    rw [hm]
    simp [essayBranchResults]

/-- C9 witness: one choice region whose branch fails and a failing essay
branch still yield a result containing that region with an empty answer
list and an empty essay portion. -/
theorem C9_witness :
    (recognizeStudentAnswers ⟨[⟨QType.choice, 10, 10, 50, 50⟩], [], none⟩
        (fun _ => .error "crop failed") (.error "essay failed")).regions =
      [⟨QType.choice, ⟨QType.choice, 10, 10, 50, 50⟩, []⟩] ∧
    (⟨QType.choice, ⟨QType.choice, 10, 10, 50, 50⟩, []⟩ : RegionAnswerResult) ∈
      (recognizeStudentAnswers ⟨[⟨QType.choice, 10, 10, 50, 50⟩], [], none⟩
        (fun _ => .error "crop failed") (.error "essay failed")).regions := by
  have h := C9_theorem ⟨[⟨QType.choice, 10, 10, 50, 50⟩], [], none⟩
    (fun _ => .error "crop failed") (.error "essay failed")
  refine ⟨?_, ?_⟩
  · rw [h.2.2 "essay failed" rfl]
    rfl
  · exact h.2.1 0 _ "crop failed" rfl rfl

/-! ### C8: region filtering and expansion in the Response Parser -/

lemma validateRegion_toQuestionRegion (r : RawRegion) :
    validateRegion r = true →
    ∃ a b c d, r.x_min_percent = some a ∧ r.y_min_percent = some b ∧
      r.x_max_percent = some c ∧ r.y_max_percent = some d ∧
      toQuestionRegion r = some
        ⟨(if r.type == "choice" then QType.choice else QType.essay),
          a, b, c, d⟩ := by
  intro hv
  unfold validateRegion at hv
  unfold toQuestionRegion
  cases hxa : r.x_min_percent with
  | none => rw [hxa] at hv; simp at hv
  | some a =>
  cases hxb : r.y_min_percent with
  | none => rw [hxb] at hv; simp at hv
  | some b =>
  cases hxc : r.x_max_percent with
  | none => rw [hxc] at hv; simp at hv
  | some c =>
  cases hxd : r.y_max_percent with
  | none => rw [hxd] at hv; simp at hv
  | some d =>
  refine ⟨a, b, c, d, rfl, rfl, rfl, rfl, ?_⟩
  cases hch : r.type == "choice" with
  | true => simp [hch]
  | false =>
    cases hes : r.type == "essay" with
    | true => simp [hch, hes]
    | false =>
      rw [hxa, hxb, hxc, hxd] at hv
      simp [hch, hes] at hv

/-- C8: on a recovered JSON object, the output regions are exactly the
input regions that pass validation (`type ∈ {choice, essay}`, four
numeric coordinates in [0,100], `x_min < x_max`, `y_min < y_max`) — each
returned with every edge moved outward by 2 percentage points and clamped
into [0,100] — invalid regions being dropped without raising; expansion
keeps an edge already at 0 or 100 unchanged, and every output coordinate
stays inside [0,100]. -/
theorem C8_theorem (regions : List RawRegion) :
    (∀ r' : QuestionRegion, r' ∈ parseResponseRegions regions ↔
      ∃ r ∈ regions, ∃ a b c d,
        r.x_min_percent = some a ∧ r.y_min_percent = some b ∧
        r.x_max_percent = some c ∧ r.y_max_percent = some d ∧
        ((r.type = "choice" ∧ r'.type = QType.choice) ∨
          (r.type = "essay" ∧ r'.type = QType.essay)) ∧
        0 ≤ a ∧ a ≤ 100 ∧ 0 ≤ b ∧ b ≤ 100 ∧ 0 ≤ c ∧ c ≤ 100 ∧
        0 ≤ d ∧ d ≤ 100 ∧ a < c ∧ b < d ∧
        r'.x_min_percent = max 0 (a - 2) ∧ r'.y_min_percent = max 0 (b - 2) ∧
        r'.x_max_percent = min 100 (c + 2) ∧
        r'.y_max_percent = min 100 (d + 2)) ∧
    (∀ r' ∈ parseResponseRegions regions,
      0 ≤ r'.x_min_percent ∧ r'.x_min_percent ≤ 100 ∧
      0 ≤ r'.y_min_percent ∧ r'.y_min_percent ≤ 100 ∧
      0 ≤ r'.x_max_percent ∧ r'.x_max_percent ≤ 100 ∧
      0 ≤ r'.y_max_percent ∧ r'.y_max_percent ≤ 100) ∧
    (∀ reg : QuestionRegion,
      (reg.x_min_percent = 0 →
        (expandRegionCoordinates reg).x_min_percent = 0) ∧
      (reg.y_min_percent = 0 →
        (expandRegionCoordinates reg).y_min_percent = 0) ∧
      (reg.x_max_percent = 100 →
        (expandRegionCoordinates reg).x_max_percent = 100) ∧
      (reg.y_max_percent = 100 →
        (expandRegionCoordinates reg).y_max_percent = 100)) := by
  have hiff : ∀ r' : QuestionRegion, r' ∈ parseResponseRegions regions ↔
      ∃ r ∈ regions, ∃ a b c d,
        r.x_min_percent = some a ∧ r.y_min_percent = some b ∧
        r.x_max_percent = some c ∧ r.y_max_percent = some d ∧
        ((r.type = "choice" ∧ r'.type = QType.choice) ∨
          (r.type = "essay" ∧ r'.type = QType.essay)) ∧
        0 ≤ a ∧ a ≤ 100 ∧ 0 ≤ b ∧ b ≤ 100 ∧ 0 ≤ c ∧ c ≤ 100 ∧
        0 ≤ d ∧ d ≤ 100 ∧ a < c ∧ b < d ∧
        r'.x_min_percent = max 0 (a - 2) ∧ r'.y_min_percent = max 0 (b - 2) ∧
        r'.x_max_percent = min 100 (c + 2) ∧
        r'.y_max_percent = min 100 (d + 2) := by
    intro r'
    unfold parseResponseRegions
    rw [List.mem_map]
    constructor
    · rintro ⟨r0, hr0, rfl⟩
      rw [List.mem_filterMap] at hr0
      obtain ⟨r, hr, hconv⟩ := hr0
      rw [List.mem_filter] at hr
      obtain ⟨hrmem, hv⟩ := hr
      obtain ⟨a, b, c, d, ha, hb, hc, hd, hcv⟩ :=
        validateRegion_toQuestionRegion r hv
      rw [hconv] at hcv
      injection hcv with hcv
      subst hcv
      unfold validateRegion at hv
      rw [ha, hb, hc, hd] at hv
      simp only [Bool.and_eq_true, Bool.or_eq_true, Bool.not_eq_true',
        decide_eq_true_eq, decide_eq_false_iff_not, not_le, beq_iff_eq] at hv
      refine ⟨r, hrmem, a, b, c, d, ha, hb, hc, hd, ?_, hv.1.1.1.1.1.2.1,
        hv.1.1.1.1.1.2.2, hv.1.1.1.1.2.1, hv.1.1.1.1.2.2, hv.1.1.1.2.1,
        hv.1.1.1.2.2, hv.1.1.2.1, hv.1.1.2.2, hv.1.2, hv.2, ?_, ?_, ?_, ?_⟩
      · rcases hv.1.1.1.1.1.1 with ht | ht
        · exact Or.inl ⟨ht, by simp [expandRegionCoordinates, ht]⟩
        · rcases eq_or_ne r.type "choice" with hch | hch
          · exact Or.inl ⟨hch, by simp [expandRegionCoordinates, hch]⟩
          · refine Or.inr ⟨ht, ?_⟩
            simp [expandRegionCoordinates, if_neg (by simpa using hch)]
      all_goals simp [expandRegionCoordinates]
    · rintro ⟨r, hrmem, a, b, c, d, ha, hb, hc, hd, hty, h0a, ha1, h0b, hb1,
        h0c, hc1, h0d, hd1, hac, hbd, hx1, hy1, hx2, hy2⟩
      have hv : validateRegion r = true := by
        unfold validateRegion
        rw [ha, hb, hc, hd]
        simp only [Bool.and_eq_true, Bool.or_eq_true, Bool.not_eq_true',
          decide_eq_true_eq, decide_eq_false_iff_not, not_le, beq_iff_eq]
        rcases hty with ⟨ht, _⟩ | ⟨ht, _⟩
        · exact ⟨⟨⟨⟨⟨⟨Or.inl ht, h0a, ha1⟩, h0b, hb1⟩, h0c, hc1⟩, h0d, hd1⟩,
            hac⟩, hbd⟩
        · exact ⟨⟨⟨⟨⟨⟨Or.inr ht, h0a, ha1⟩, h0b, hb1⟩, h0c, hc1⟩, h0d, hd1⟩,
            hac⟩, hbd⟩
      obtain ⟨a', b', c', d', ha', hb', hc', hd', hcv⟩ :=
        validateRegion_toQuestionRegion r hv
      rw [ha] at ha'
      rw [hb] at hb'
      rw [hc] at hc'
      rw [hd] at hd'
      injection ha' with ha'
      injection hb' with hb'
      injection hc' with hc'
      injection hd' with hd'
      subst ha'
      subst hb'
      subst hc'
      subst hd'
      set t0 : QType := if r.type == "choice" then QType.choice else QType.essay
        with hdef
      refine ⟨⟨t0, a, b, c, d⟩, ?_, ?_⟩
      · rw [List.mem_filterMap]
        exact ⟨r, List.mem_filter.mpr ⟨hrmem, hv⟩, hcv⟩
      · have hty' : r'.type = t0 := by
          rcases hty with ⟨ht, ht'⟩ | ⟨ht, ht'⟩
          · rw [ht', hdef, if_pos (by simp [ht])]
          · rcases eq_or_ne r.type "choice" with hch | hch
            · rw [hch] at ht
              simp at ht
            · rw [ht', hdef, if_neg (by simpa using hch)]
        cases r'
        simp only at hty' hx1 hy1 hx2 hy2
        simp [expandRegionCoordinates, hty', hx1, hy1, hx2, hy2]
  refine ⟨hiff, ?_, ?_⟩
  · intro r' hr'
    obtain ⟨r, _, a, b, c, d, _, _, _, _, _, h0a, ha1, h0b, hb1, h0c, hc1,
      h0d, hd1, _, _, hx1, hy1, hx2, hy2⟩ := (hiff r').mp hr'
    refine ⟨?_, ?_, ?_, ?_, ?_, ?_, ?_, ?_⟩
    · rw [hx1]; exact le_max_left 0 _
    · rw [hx1]; exact max_le (by norm_num) (by linarith)
    · rw [hy1]; exact le_max_left 0 _
    · rw [hy1]; exact max_le (by norm_num) (by linarith)
    · rw [hx2]; exact le_min (by linarith) (by linarith)
    · rw [hx2]; exact min_le_left 100 _
    · rw [hy2]; exact le_min (by linarith) (by linarith)
    · rw [hy2]; exact min_le_left 100 _
  · intro reg
    refine ⟨?_, ?_, ?_, ?_⟩ <;> intro h <;>
      simp [expandRegionCoordinates, h]

/-- C8 witness: a concrete valid region touching the left edge is kept,
expanded and clamped (left edge unchanged), while an inverted region is
dropped. -/
theorem C8_witness :
    (⟨QType.choice, 0, 8, 100, 52⟩ : QuestionRegion) ∈
      parseResponseRegions
        [⟨"choice", some 0, some 10, some 98, some 50⟩,
         ⟨"choice", some 60, some 10, some 20, some 50⟩] ∧
    (expandRegionCoordinates ⟨QType.choice, 0, 10, 98, 50⟩).x_min_percent
      = 0 := by
  constructor
  · refine ((C8_theorem _).1 _).mpr
      ⟨⟨"choice", some 0, some 10, some 98, some 50⟩, by simp, 0, 10, 98, 50,
        rfl, rfl, rfl, rfl, Or.inl ⟨rfl, rfl⟩, ?_, ?_, ?_, ?_, ?_, ?_, ?_, ?_,
        ?_, ?_, ?_, ?_, ?_, ?_⟩ <;> norm_num
  · exact ((C8_theorem []).2.2 ⟨QType.choice, 0, 10, 98, 50⟩).1 rfl

/-! ### C1: score clamp invariant in `calculateScores` -/

lemma scoresMapGet_mem (scores : List ScoreEntry) (k : QNum) (v : ℚ) :
    scoresMapGet scores k = some v → ∃ e ∈ scores, e.questionNumber = k ∧
      e.score = v := by
  suffices h : ∀ (acc : Option ℚ),
      (scores.foldl
        (fun acc e => if e.questionNumber == k then some e.score else acc)
        acc) = some v →
      (∃ e ∈ scores, e.questionNumber = k ∧ e.score = v) ∨ acc = some v by
    intro hg
    rcases h none hg with h' | h'
    · exact h'
    · exact absurd h' (by simp)
  induction scores with
  | nil => intro acc h; exact Or.inr h
  | cons e tl ih =>
    intro acc h
    rw [List.foldl_cons] at h
    rcases ih _ h with h' | h'
    · obtain ⟨e', he', hk, hs⟩ := h'
      exact Or.inl ⟨e', List.mem_cons_of_mem e he', hk, hs⟩
    · by_cases hek : e.questionNumber = k
      · rw [if_pos (by simpa using hek)] at h'
        injection h' with h'
        exact Or.inl ⟨e, List.mem_cons_self e tl, hek, h'⟩
      · rw [if_neg (by simpa using hek)] at h'
        exact Or.inr h'

lemma parseScoreResponse_mem (bs : List ScoreEntry)
    (qs : List RawGradedQuestion) (q' : QuestionScoreResult) :
    q' ∈ parseScoreResponse bs qs ↔
    ∃ q ∈ qs, 0 ≤ q.score ∧
      q' = { question_number := q.question_number
             type := q.type.getD .choice
             score := min q.score
               ((scoresMapGet bs q.question_number).getD q.max_score)
             max_score := (scoresMapGet bs q.question_number).getD q.max_score
             reason := q.reason } := by
  unfold parseScoreResponse
  rw [List.mem_map]
  constructor
  · rintro ⟨q, hqf, rfl⟩
    rw [List.mem_filter] at hqf
    exact ⟨q, hqf.1, by simpa using hqf.2, rfl⟩
  · rintro ⟨q, hq, h0, rfl⟩
    exact ⟨q, List.mem_filter.mpr ⟨hq, by simpa using h0⟩, rfl⟩

lemma parseScoreResponse_single (bs : List ScoreEntry)
    (q : RawGradedQuestion) (h0 : 0 ≤ q.score) :
    parseScoreResponse bs [q] =
      [{ question_number := q.question_number
         type := q.type.getD .choice
         score := min q.score
           ((scoresMapGet bs q.question_number).getD q.max_score)
         max_score := (scoresMapGet bs q.question_number).getD q.max_score
         reason := q.reason }] := by
  unfold parseScoreResponse
  rw [List.filter_cons, if_pos (by simpa using h0)]
  rfl

/-- C1 (counterexample): when the grading model reports a negative
`max_score` for a question the blank sheet says nothing about, the
clamping `Math.min(score, correctMaxScore)` drives the returned score
below zero, violating the claimed `0 ≤ score` invariant. -/
theorem C1_counterexample :
    (calculateScores ⟨[], [], none⟩
        [⟨QNum.num 1, some QKind.choice, 3, -5, none⟩]).questions =
      [⟨QNum.num 1, QKind.choice, -5, -5, none⟩] ∧
    ¬ (0 : ℚ) ≤ -5 := by
  constructor
  · show parseScoreResponse [] _ = _
    rw [parseScoreResponse_single [] _ (by norm_num)]
    have hg : scoresMapGet [] (QNum.num 1) = none := rfl
    rw [hg]
    simp only [Option.getD_none]
    have hmin : min (3 : ℚ) (-5) = -5 := min_eq_right (by norm_num)
    rw [hmin]
    rfl
  · norm_num

/-- C1 (amended): provided every blank-sheet-declared score is
nonnegative and every model-reported `max_score` is nonnegative, every
question in the `calculateScores` result satisfies
`0 ≤ score ≤ max_score`; and whenever the blank sheet declares a score
for that exact `question_number` (same type and value; the last
declaration wins when the blank sheet repeats a question number), the
question's `max_score` equals that declared value and its score is
clamped to not exceed it. -/
theorem C1_theorem (blank : RecognitionResult)
    (qs : List RawGradedQuestion)
    (hb : ∀ e ∈ blank.scores, 0 ≤ e.score)
    (hm : ∀ q ∈ qs, 0 ≤ q.max_score) :
    ∀ q' ∈ (calculateScores blank qs).questions,
      0 ≤ q'.score ∧ q'.score ≤ q'.max_score ∧
      ∀ v, scoresMapGet blank.scores q'.question_number = some v →
        q'.max_score = v ∧ q'.score ≤ v := by
  intro q' hq'
  have hq'' : q' ∈ parseScoreResponse blank.scores qs := hq'
  rw [parseScoreResponse_mem] at hq''
  obtain ⟨q, hqmem, hq0, rfl⟩ := hq''
  cases hget : scoresMapGet blank.scores q.question_number with
  | none =>
    simp only [hget, Option.getD_none]
    refine ⟨le_min hq0 (hm q hqmem), min_le_right _ _, ?_⟩
    intro v hv
    exact absurd hv (by simp)
  | some v =>
    obtain ⟨e, hemem, _, hescore⟩ := scoresMapGet_mem _ _ _ hget
    have hv0 : (0 : ℚ) ≤ v := hescore ▸ hb e hemem
    simp only [hget, Option.getD_some]
    refine ⟨le_min hq0 hv0, min_le_right _ _, ?_⟩
    intro v' hv'
    injection hv' with hv'
    subst hv'
    exact ⟨rfl, min_le_right _ _⟩

/-- C1 witness: with a blank sheet declaring 3 points for question 1 and
the model reporting 5/10, the graded question comes back with
`max_score = 3` and its score clamped to 3. -/
theorem C1_witness :
    ((0 : ℚ) ≤ 3 ∧ (3 : ℚ) ≤ 3 ∧
      ∀ v, scoresMapGet [⟨QNum.num 1, 3⟩] (QNum.num 1) = some v →
        (3 : ℚ) = v ∧ (3 : ℚ) ≤ v) ∧
    (calculateScores ⟨[], [⟨QNum.num 1, 3⟩], none⟩
        [⟨QNum.num 1, some QKind.choice, 5, 10, none⟩]).questions =
      [⟨QNum.num 1, QKind.choice, 3, 3, none⟩] := by
  have hg : scoresMapGet [⟨QNum.num 1, (3 : ℚ)⟩] (QNum.num 1) = some 3 := by
    simp [scoresMapGet]
  have hmin : min (5 : ℚ) 3 = 3 := min_eq_right (by norm_num)
  have heq : parseScoreResponse [⟨QNum.num 1, (3 : ℚ)⟩]
      [⟨QNum.num 1, some QKind.choice, 5, 10, none⟩] =
      [⟨QNum.num 1, QKind.choice, 3, 3, none⟩] := by
    rw [parseScoreResponse_single _ _ (by norm_num)]
    rw [hg]
    simp only [Option.getD_some]
    rw [hmin]
  constructor
  · have h := C1_theorem ⟨[], [⟨QNum.num 1, 3⟩], none⟩
      [⟨QNum.num 1, some QKind.choice, 5, 10, none⟩]
      (by intro e he; simp at he; rw [he]; norm_num)
      (by intro q hq; simp at hq; rw [hq]; norm_num)
      ⟨QNum.num 1, QKind.choice, 3, 3, none⟩
      (by show _ ∈ parseScoreResponse _ _; rw [heq]; exact List.mem_singleton.mpr rfl)
    exact h
  · exact heq

/-! ### C2: batch grading failure isolation -/

lemma gradeBatchTask_outcome (s : Nat × Except String Unit) :
    (gradeBatchTask s).2 = s.2 := by
  obtain ⟨i, o⟩ := s
  cases o with
  | ok u => cases u; rfl
  | error m => rfl

lemma gradeBatch_events_map (l : List (Nat × Except String Unit)) :
    (l.flatMap fun s => (gradeBatchTask s).1) =
      l.map fun s => match s.2 with
        | .ok _ => CbEvent.completedRun s.1
        | .error m => CbEvent.failedAttempt s.1 m := by
  induction l with
  | nil => rfl
  | cons s tl ih =>
    obtain ⟨i, o⟩ := s
    cases o with
    | ok u =>
      cases u
      rw [List.flatMap_cons, ih]
      rfl
    | error m =>
      rw [List.flatMap_cons, ih]
      rfl

lemma poolGo_allok (limit : Nat) :
    ∀ (tasks executing : List (Except String Unit)) (started : Nat),
      (∀ t ∈ tasks, t = .ok ()) → (∀ t ∈ executing, t = .ok ()) →
      poolGo limit tasks executing started =
        { startedCount := started + tasks.length, outcome := .ok () } := by
  intro tasks
  induction tasks with
  | nil =>
    intro executing started _ hex
    simp only [poolGo]
    have hfs : executing.findSome?
        (fun t => match t with | .error m => some m | .ok _ => none) = none := by
      rw [List.findSome?_eq_none_iff]
      intro t ht
      rw [hex t ht]
    rw [hfs]
    simp
  | cons t rest ih =>
    intro executing started hts hex
    have ht : t = .ok () := hts t (List.mem_cons_self t rest)
    have hrest : ∀ t' ∈ rest, t' = .ok () :=
      fun t' ht' => hts t' (List.mem_cons_of_mem t ht')
    have hex' : ∀ t' ∈ executing ++ [t], t' = .ok () := by
      intro t' ht'
      rcases List.mem_append.mp ht' with h | h
      · exact hex t' h
      · rw [List.mem_singleton.mp h, ht]
    simp only [poolGo]
    split
    · split
      · -- `executing ++ [t] = []`: impossible
        rename_i heq
        exact absurd heq (by simp)
      · -- a settled head: all-ok rules out the rejected branch, a
        -- resolved head is spliced out and the loop continues
        rename_i e es heq
        have he : e = .ok () := by
          refine hex' e ?_
          rw [heq]
          exact List.mem_cons_self _ es
        subst he
        have hes : ∀ t' ∈ es, t' = .ok () := by
          intro t' ht'
          refine hex' t' ?_
          rw [heq]
          exact List.mem_cons_of_mem _ ht'
        show poolGo limit rest es (started + 1) = _
        rw [ih es (started + 1) hrest hes]
        congr 1
        simp
        omega
    · rw [ih (executing ++ [t]) (started + 1) hrest hex']
      congr 1
      simp
      omega

/-- C2 (counterexample): with `maxConcurrent = 1` and a batch of two
sheets whose first grading throws, the failing task's rejection makes the
pool's `await Promise.race` reject before the second sheet's task is ever
started: the sibling sheet is blocked, gets no callback, and `gradeBatch`
itself rejects — contrary to the claim that every other sheet is still
started and run to completion with its own callback. -/
theorem C2_counterexample :
    (gradeBatch [(1, .error "boom"), (2, .ok ())] 1).2.startedCount = 1 ∧
    (gradeBatch [(1, .error "boom"), (2, .ok ())] 1).1 =
      [CbEvent.failedAttempt 1 "boom"] ∧
    CbEvent.completedRun 2 ∉ (gradeBatch [(1, .error "boom"), (2, .ok ())] 1).1 ∧
    (gradeBatch [(1, .error "boom"), (2, .ok ())] 1).2.outcome =
      .error "boom" := by
  refine ⟨rfl, rfl, ?_, rfl⟩
  decide

/-- C2 (amended): every *started* sheet yields exactly one callback
attempt, in start order (`events.map cbId` lists the started sheet ids);
a started sheet whose grading throws gets exactly a `failed` callback
carrying its id and the error message, and only failing started sheets
get one; started sheets run to completion independently of each other's
outcomes; and when no sheet fails, all sheets are started and the pool
await resolves. However a failing task's rejection propagates to the
pool's `race`/`all` awaits, so sheets not yet started when a failure
settles are never started (see the counterexample). -/
theorem C2_theorem (sheets : List (Nat × Except String Unit)) (limit : Nat) :
    (gradeBatch sheets limit).1.map cbId =
      (sheets.take (gradeBatch sheets limit).2.startedCount).map (·.1) ∧
    (∀ i m, CbEvent.failedAttempt i m ∈ (gradeBatch sheets limit).1 ↔
      (i, Except.error m) ∈
        sheets.take (gradeBatch sheets limit).2.startedCount) ∧
    (∀ i, CbEvent.completedRun i ∈ (gradeBatch sheets limit).1 ↔
      (i, Except.ok ()) ∈
        sheets.take (gradeBatch sheets limit).2.startedCount) ∧
    ((∀ s ∈ sheets, s.2 = .ok ()) →
      (gradeBatch sheets limit).2 =
        { startedCount := sheets.length, outcome := .ok () }) := by
  refine ⟨?_, ?_, ?_, ?_⟩
  · show ((sheets.take _).flatMap fun s => (gradeBatchTask s).1).map cbId = _
    rw [gradeBatch_events_map]
    rw [List.map_map]
    refine List.map_congr_left ?_
    intro s _
    obtain ⟨i, o⟩ := s
    cases o with
    | ok u => rfl
    | error m => rfl
  · intro i m
    show CbEvent.failedAttempt i m ∈
      ((sheets.take _).flatMap fun s => (gradeBatchTask s).1) ↔ _
    rw [gradeBatch_events_map, List.mem_map]
    constructor
    · rintro ⟨s, hs, he⟩
      obtain ⟨j, o⟩ := s
      cases o with
      | ok u => exact absurd he (by simp)
      | error m' =>
        simp only [CbEvent.failedAttempt.injEq] at he
        rw [← he.1, ← he.2]
        exact hs
    · intro hs
      exact ⟨(i, Except.error m), hs, rfl⟩
  · intro i
    show CbEvent.completedRun i ∈
      ((sheets.take _).flatMap fun s => (gradeBatchTask s).1) ↔ _
    rw [gradeBatch_events_map, List.mem_map]
    constructor
    · rintro ⟨s, hs, he⟩
      obtain ⟨j, o⟩ := s
      cases o with
      | error m' => exact absurd he (by simp)
      | ok u =>
        simp only [CbEvent.completedRun.injEq] at he
        cases u
        rw [← he]
        exact hs
    · intro hs
      exact ⟨(i, Except.ok ()), hs, rfl⟩
  · intro hok
    show processWithConcurrencyLimit _ _ = _
    unfold processWithConcurrencyLimit
    rw [poolGo_allok limit _ [] 0
      (by
        intro t ht
        rw [List.mem_map] at ht
        obtain ⟨s, hs, rfl⟩ := ht
        rw [gradeBatchTask_outcome]
        exact hok s hs)
      (by intro t ht; exact absurd ht (by simp))]
    simp

/-- C2 witness: a two-sheet batch with no failures starts both sheets,
completes the pool await, and emits exactly the two completion-callback
attempts. -/
theorem C2_witness :
    (gradeBatch [(7, .ok ()), (8, .ok ())] 5).2 =
      { startedCount := 2, outcome := .ok () } ∧
    (CbEvent.completedRun 7 ∈ (gradeBatch [(7, .ok ()), (8, .ok ())] 5).1 ↔
      ((7 : Nat), Except.ok ()) ∈
        ([(7, .ok ()), (8, .ok ())] :
          List (Nat × Except String Unit)).take
          (gradeBatch [(7, .ok ()), (8, .ok ())] 5).2.startedCount) := by
  constructor
  · exact (C2_theorem [(7, .ok ()), (8, .ok ())] 5).2.2.2 (by decide)
  · exact (C2_theorem [(7, .ok ()), (8, .ok ())] 5).2.2.1 7

/-! ### C7: question-number comparator -/

lemma natCmp_swap (a b : Nat) : natCmp a b = (natCmp b a).swap := by
  unfold natCmp
  rcases Nat.lt_trichotomy a b with h | h | h
  · rw [if_pos h, if_neg (show ¬ b < a by omega), if_pos h]
    rfl
  · subst h
    simp only [Nat.lt_irrefl, if_neg, if_false]
    rfl
  · rw [if_neg (show ¬ a < b by omega), if_pos h, if_pos h]
    rfl

lemma tokCmp_swap (a b : NatTok) : tokCmp a b = (tokCmp b a).swap := by
  cases a with
  | num n =>
    cases b with
    | num m => exact natCmp_swap n m
    | chr c => rfl
  | chr c =>
    cases b with
    | num m => rfl
    | chr d => exact natCmp_swap c.toNat d.toNat

lemma lexCmp_swap : ∀ l1 l2 : List NatTok, lexCmp l1 l2 = (lexCmp l2 l1).swap := by
  intro l1
  induction l1 with
  | nil =>
    intro l2
    cases l2 <;> rfl
  | cons a as ih =>
    intro l2
    cases l2 with
    | nil => rfl
    | cons b bs =>
      show (match tokCmp a b with
        | .eq => lexCmp as bs
        | o => o) = (match tokCmp b a with
        | .eq => lexCmp bs as
        | o => o).swap
      rw [tokCmp_swap a b]
      cases tokCmp b a with
      | lt => rfl
      | gt => rfl
      | eq =>
        simp only [Ordering.swap]
        exact ih bs

lemma localeCompareNumeric_swap (s t : String) :
    localeCompareNumeric s t = - localeCompareNumeric t s := by
  unfold localeCompareNumeric
  rw [lexCmp_swap]
  cases lexCmp (tokenize t) (tokenize s) <;> rfl

unseal Rat.sub Rat.mul Rat.add Rat.ofScientific in
/-- C7 (counterexample): the comparator is not transitive on the mixed
number / numeric-string space: `2.45 < 2.5` numerically, `2.5 < "2.44"`
and `"2.44" < 2.45` under natural-order string comparison of the
stringified values (the digit run 5 compares below 44, and 44 below 45),
a strict three-cycle refuting the claimed total order. -/
theorem C7_counterexample :
    compareQuestionNumbers (.num 2.45) (.num 2.5) < 0 ∧
    compareQuestionNumbers (.num 2.5) (.str "2.44") < 0 ∧
    compareQuestionNumbers (.str "2.44") (.num 2.45) < 0 ∧
    ¬ (∀ a b c : QNum, compareQuestionNumbers a b < 0 →
        compareQuestionNumbers b c < 0 → compareQuestionNumbers a c < 0) := by
  refine ⟨by decide, by decide, by decide, fun h => ?_⟩
  have h1 := h (.num 2.45) (.num 2.5) (.str "2.44") (by decide) (by decide)
  exact absurd h1 (by decide)

unseal Rat.sub Rat.mul Rat.add Rat.ofScientific in
/-- C7 (amended): the comparator is a total function (never throws, every
pair yields a sign), compares two numbers numerically
(`compare(1, 2) < 0`), orders sub-question strings naturally
(`compare("13(1)", "13(2)") < 0`), and is sign-antisymmetric on every
input pair including mixed ones; but it is not transitive across mixed
number/string pairs (see the counterexample), so it is not a total
order. -/
theorem C7_theorem :
    compareQuestionNumbers (.num 1) (.num 2) < 0 ∧
    compareQuestionNumbers (.str "13(1)") (.str "13(2)") < 0 ∧
    (∀ a b : QNum, compareQuestionNumbers a b < 0 ∨
      compareQuestionNumbers a b = 0 ∨ 0 < compareQuestionNumbers a b) ∧
    (∀ a b : QNum,
      (compareQuestionNumbers a b = 0 ↔ compareQuestionNumbers b a = 0) ∧
      (0 < compareQuestionNumbers a b ↔ compareQuestionNumbers b a < 0)) := by
  refine ⟨by decide, by decide, fun a b => lt_trichotomy _ _, ?_⟩
  have hstr : ∀ s t : String,
      ((((localeCompareNumeric s t : Int) : ℚ) = 0 ↔
        ((localeCompareNumeric t s : Int) : ℚ) = 0) ∧
      (0 < ((localeCompareNumeric s t : Int) : ℚ) ↔
        ((localeCompareNumeric t s : Int) : ℚ) < 0)) := by
    intro s t
    rw [localeCompareNumeric_swap s t]
    push_cast
    constructor
    · constructor
      · intro h
        linarith
      · intro h
        linarith
    · constructor
      · intro h
        linarith
      · intro h
        linarith
  intro a b
  cases a with
  | num x =>
    cases b with
    | num y =>
      show ((x - y = 0) ↔ (y - x = 0)) ∧ ((0 < x - y) ↔ (y - x < 0))
      constructor
      · constructor <;> intro h <;> linarith
      · constructor <;> intro h <;> linarith
    | str t => exact hstr _ _
  | str s =>
    cases b with
    | num y => exact hstr _ _
    | str t => exact hstr _ _

/-! ### C4: `mergeScoreResults` totals over the deduplicated questions -/

lemma foldl_add_max_score :
    ∀ (l : List QuestionScoreResult) (s : ℚ),
      l.foldl (fun acc q => acc + q.max_score) s =
        s + (l.map (·.max_score)).sum := by
  intro l
  induction l with
  | nil => intro s; simp
  | cons a tl ih =>
    intro s
    rw [List.foldl_cons, ih (s + a.max_score)]
    simp [add_assoc]

lemma msQStep_sum :
    ∀ (l : List QuestionScoreResult) (st : List QuestionScoreResult × ℚ),
      st.2 = (st.1.map (·.score)).sum →
      (l.foldl msQStep st).2 = ((l.foldl msQStep st).1.map (·.score)).sum := by
  intro l
  induction l with
  | nil => intro st h; exact h
  | cons q tl ih =>
    intro st h
    rw [List.foldl_cons]
    refine ih _ ?_
    unfold msQStep
    by_cases hd : st.1.any (fun p => p.question_number == q.question_number)
    · rw [if_pos hd]
      exact h
    · rw [if_neg hd]
      simp [h]

lemma msQStep_nodup :
    ∀ (l : List QuestionScoreResult) (st : List QuestionScoreResult × ℚ),
      (st.1.map (·.question_number)).Nodup →
      ((l.foldl msQStep st).1.map (·.question_number)).Nodup := by
  intro l
  induction l with
  | nil => intro st h; exact h
  | cons q tl ih =>
    intro st h
    rw [List.foldl_cons]
    refine ih _ ?_
    unfold msQStep
    by_cases hd : st.1.any (fun p => p.question_number == q.question_number)
    · rw [if_pos hd]
      exact h
    · rw [if_neg hd]
      simp only [List.map_append, List.map_cons, List.map_nil]
      rw [List.nodup_append]
      refine ⟨h, List.nodup_singleton _, ?_⟩
      intro k hk hk'
      rw [List.mem_singleton] at hk'
      subst hk'
      rw [List.mem_map] at hk
      obtain ⟨p, hp, hpk⟩ := hk
      refine hd ?_
      rw [List.any_eq_true]
      exact ⟨p, hp, by simp [hpk]⟩

lemma msQStep_mem :
    ∀ (l : List QuestionScoreResult) (st : List QuestionScoreResult × ℚ)
      (k : QNum),
      (k ∈ (l.foldl msQStep st).1.map (·.question_number) ↔
        k ∈ st.1.map (·.question_number) ∨ k ∈ l.map (·.question_number)) := by
  intro l
  induction l with
  | nil => intro st k; simp
  | cons q tl ih =>
    intro st k
    rw [List.foldl_cons, ih]
    unfold msQStep
    by_cases hd : st.1.any (fun p => p.question_number == q.question_number)
    · rw [if_pos hd]
      simp only [List.map_cons, List.mem_cons]
      constructor
      · rintro (h | h)
        · exact Or.inl h
        · exact Or.inr (Or.inr h)
      · rintro (h | h | h)
        · exact Or.inl h
        · subst h
          rw [List.any_eq_true] at hd
          obtain ⟨p, hp, hpk⟩ := hd
          refine Or.inl ?_
          rw [List.mem_map]
          exact ⟨p, hp, by simpa using hpk⟩
        · exact Or.inr h
    · rw [if_neg hd]
      simp only [List.map_append, List.map_cons, List.map_nil,
        List.mem_append, List.mem_cons, List.not_mem_nil, or_false]
      tauto

/-- C4: the merged totals are the sums of `score` and `max_score` over
the deduplicated (first-occurrence-wins) questions list, in which every
`question_number` appears exactly once (`Nodup`) and which covers exactly
the question numbers occurring in the inputs; and the totals never read
the inputs' pre-merge `totalScore`/`totalMaxScore` fields: overwriting
those fields arbitrarily leaves the merge result unchanged. -/
theorem C4_theorem (zhc : String → String → Int)
    (results : List ScoreCalculationResult) :
    (mergeScoreResults zhc results).totalScore =
      (((mergeScoreResults zhc results).questions.map (·.score)).sum) ∧
    (mergeScoreResults zhc results).totalMaxScore =
      (((mergeScoreResults zhc results).questions.map (·.max_score)).sum) ∧
    ((mergeScoreResults zhc results).questions.map
      (·.question_number)).Nodup ∧
    (∀ k, k ∈ (mergeScoreResults zhc results).questions.map
        (·.question_number) ↔
      ∃ r ∈ results, k ∈ r.questions.map (·.question_number)) ∧
    (∀ f g : ScoreCalculationResult → ℚ,
      mergeScoreResults zhc (results.map fun r =>
        { r with totalScore := f r, totalMaxScore := g r }) =
        mergeScoreResults zhc results) := by
  have hperm : ((((results.flatMap (·.questions)).foldl msQStep
      ([], 0)).1.mergeSort (msLe zhc)).Perm
      (((results.flatMap (·.questions)).foldl msQStep ([], 0)).1)) :=
    List.mergeSort_perm _ _
  refine ⟨?_, ?_, ?_, ?_, ?_⟩
  · show ((results.flatMap (·.questions)).foldl msQStep ([], 0)).2 = _
    rw [msQStep_sum _ ([], 0) (by simp)]
    exact ((hperm.map (·.score)).sum_eq).symm
  · show (((results.flatMap (·.questions)).foldl msQStep
      ([], 0)).1.mergeSort (msLe zhc)).foldl (fun s q => s + q.max_score) 0 = _
    rw [foldl_add_max_score]
    rw [zero_add]
    rfl
  · exact (hperm.map (·.question_number)).nodup_iff.mpr
      (msQStep_nodup _ ([], 0) (by simp))
  · intro k
    have h1 : k ∈ (mergeScoreResults zhc results).questions.map
        (·.question_number) ↔
        k ∈ (((results.flatMap (·.questions)).foldl msQStep
          ([], 0)).1.map (·.question_number)) :=
      (hperm.map (·.question_number)).mem_iff
    rw [h1, msQStep_mem _ ([], 0) k]
    simp only [List.map_nil, List.not_mem_nil, false_or]
    rw [List.map_flatMap]
    rw [List.mem_flatMap]
  · intro f g
    unfold mergeScoreResults
    have h1 : ((results.map fun r =>
        { r with totalScore := f r, totalMaxScore := g r }).flatMap
        (·.questions)) = results.flatMap (·.questions) := by
      rw [List.flatMap_map]
    have h2 : ((results.map fun r =>
        { r with totalScore := f r, totalMaxScore := g r }).map
        (·.objectiveScores)) = results.map (·.objectiveScores) := by
      rw [List.map_map]
      rfl
    have h3 : ((results.map fun r =>
        { r with totalScore := f r, totalMaxScore := g r }).map
        (·.subjectiveScores)) = results.map (·.subjectiveScores) := by
      rw [List.map_map]
      rfl
    rw [h1, h2, h3]

/-! ### C10: ordering of merged score results -/

lemma msLe_trans (zhc : String → String → Int)
    (htr : ∀ a b c, zhc a b ≤ 0 → zhc b c ≤ 0 → zhc a c ≤ 0) :
    ∀ a b c : QuestionScoreResult, msLe zhc a b = true →
      msLe zhc b c = true → msLe zhc a c = true := by
  intro a b c hab hbc
  unfold msLe at hab hbc ⊢
  rw [decide_eq_true_eq] at hab hbc ⊢
  rcases ha : a.question_number with x | s <;>
    rcases hb : b.question_number with y | t <;>
      rcases hc : c.question_number with z | u <;>
        rw [ha, hb] at hab <;> rw [hb, hc] at hbc <;>
          simp only [msCompare] at hab hbc ⊢
  · linarith
  · norm_num
  · norm_num at hbc
  · norm_num
  · norm_num at hab
  · norm_num at hab
  · norm_num at hbc
  · have h1 : zhc s t ≤ 0 := by exact_mod_cast hab
    have h2 : zhc t u ≤ 0 := by exact_mod_cast hbc
    have h3 := htr s t u h1 h2
    exact_mod_cast h3

lemma msLe_total (zhc : String → String → Int)
    (hto : ∀ a b, zhc a b ≤ 0 ∨ zhc b a ≤ 0) :
    ∀ a b : QuestionScoreResult, (msLe zhc a b || msLe zhc b a) = true := by
  intro a b
  rw [Bool.or_eq_true]
  unfold msLe
  rw [decide_eq_true_eq, decide_eq_true_eq]
  rcases a.question_number with x | s <;> rcases b.question_number with y | t <;>
    simp only [msCompare]
  · rcases le_total x y with h | h
    · exact Or.inl (by linarith)
    · exact Or.inr (by linarith)
  · exact Or.inl (by norm_num)
  · exact Or.inr (by norm_num)
  · rcases hto s t with h | h
    · exact Or.inl (by exact_mod_cast h)
    · exact Or.inr (by exact_mod_cast h)

unseal Rat.sub Rat.mul Rat.add Rat.ofScientific in
/-- C10: for any zh-CN collator that is a total preorder, the merged
questions list is sorted so that every numeric question number precedes
every string question number, numeric numbers ascend, and string numbers
follow the collator — a different rule from `compareQuestionNumbers`,
which for the pair `(10, "2")` orders the string first (natural-order
comparison of the stringified values) while the merge comparator
unconditionally places the number first. -/
theorem C10_theorem (zhc : String → String → Int)
    (htr : ∀ a b c, zhc a b ≤ 0 → zhc b c ≤ 0 → zhc a c ≤ 0)
    (hto : ∀ a b, zhc a b ≤ 0 ∨ zhc b a ≤ 0)
    (results : List ScoreCalculationResult) :
    List.Pairwise (fun a b : QuestionScoreResult =>
      (∀ x y, a.question_number = .num x → b.question_number = .num y →
        x ≤ y) ∧
      (∀ s y, a.question_number = .str s → b.question_number = .num y →
        False) ∧
      (∀ s t, a.question_number = .str s → b.question_number = .str t →
        zhc s t ≤ 0))
      (mergeScoreResults zhc results).questions ∧
    0 < compareQuestionNumbers (.num 10) (.str "2") ∧
    msCompare zhc (.num 10) (.str "2") < 0 := by
  refine ⟨?_, by decide, by norm_num [msCompare]⟩
  have hsorted := @List.sorted_mergeSort QuestionScoreResult (msLe zhc)
    (msLe_trans zhc htr) (msLe_total zhc hto)
    ((results.flatMap (·.questions)).foldl msQStep ([], 0)).1
  have hq : (mergeScoreResults zhc results).questions =
      ((results.flatMap (·.questions)).foldl msQStep
        ([], 0)).1.mergeSort (msLe zhc) := rfl
  rw [hq]
  refine hsorted.imp ?_
  intro a b hab
  unfold msLe at hab
  rw [decide_eq_true_eq] at hab
  refine ⟨?_, ?_, ?_⟩
  · intro x y hx hy
    rw [hx, hy] at hab
    simp only [msCompare] at hab
    linarith
  · intro s y hs hy
    rw [hs, hy] at hab
    simp only [msCompare] at hab
    norm_num at hab
  · intro s t hs ht
    rw [hs, ht] at hab
    simp only [msCompare] at hab
    exact_mod_cast hab

unseal Rat.sub Rat.mul Rat.add Rat.ofScientific in
/-- C10 witness: instantiating the collator with the trivial (constant 0)
total preorder and merging two concrete one-question pages. -/
theorem C10_witness :
    List.Pairwise (fun a b : QuestionScoreResult =>
      (∀ x y, a.question_number = .num x → b.question_number = .num y →
        x ≤ y) ∧
      (∀ s y, a.question_number = .str s → b.question_number = .num y →
        False) ∧
      (∀ s t, a.question_number = .str s → b.question_number = .str t →
        (fun (_ _ : String) => (0 : Int)) s t ≤ 0))
      (mergeScoreResults (fun _ _ => (0 : Int))
        [⟨[⟨.num 2, .choice, 1, 2, none⟩], [], [], 1, 2⟩,
         ⟨[⟨.str "六", .essay, 3, 5, none⟩], [], [], 3, 5⟩]).questions ∧
    0 < compareQuestionNumbers (.num 10) (.str "2") ∧
    (fun (a b : QNum) => msCompare (fun _ _ => (0 : Int)) a b)
      (.num 10) (.str "2") < 0 :=
  C10_theorem (fun _ _ => (0 : Int))
    (fun _ _ _ _ _ => le_refl 0) (fun _ _ => Or.inl (le_refl 0))
    [⟨[⟨.num 2, .choice, 1, 2, none⟩], [], [], 1, 2⟩,
     ⟨[⟨.str "六", .essay, 3, 5, none⟩], [], [], 3, 5⟩]

/-! ### C6: merging an answer recognition result with itself -/

lemma foldl_qmInsert_mono :
    ∀ (l m : List (String × (QType × QuestionAnswer))) (k : String),
      (∃ p ∈ m, p.1 = k) → ∃ p ∈ l.foldl qmInsert m, p.1 = k := by
  intro l
  induction l with
  | nil => intro m k h; exact h
  | cons a tl ih =>
    intro m k h
    rw [List.foldl_cons]
    refine ih _ k ?_
    unfold qmInsert
    obtain ⟨p, hp, hpk⟩ := h
    by_cases hc : m.any (fun p => p.1 == a.1)
    · rw [if_pos hc]
      exact ⟨p, hp, hpk⟩
    · rw [if_neg hc]
      exact ⟨p, List.mem_append.mpr (Or.inl hp), hpk⟩

lemma foldl_qmInsert_keys :
    ∀ (l m : List (String × (QType × QuestionAnswer))) (e),
      e ∈ l → ∃ p ∈ l.foldl qmInsert m, p.1 = e.1 := by
  intro l
  induction l with
  | nil => intro m e h; exact absurd h (by simp)
  | cons a tl ih =>
    intro m e h
    rw [List.foldl_cons]
    rcases List.mem_cons.mp h with rfl | h'
    · refine foldl_qmInsert_mono tl _ e.1 ?_
      unfold qmInsert
      by_cases hc : m.any (fun p => p.1 == e.1)
      · rw [if_pos hc]
        rw [List.any_eq_true] at hc
        obtain ⟨p, hp, hpk⟩ := hc
        exact ⟨p, hp, by simpa using hpk⟩
      · rw [if_neg hc]
        exact ⟨e, List.mem_append.mpr (Or.inr (List.mem_singleton.mpr rfl)),
          rfl⟩
    · exact ih _ e h'

lemma foldl_qmInsert_absorb :
    ∀ (l m : List (String × (QType × QuestionAnswer))),
      (∀ e ∈ l, ∃ p ∈ m, p.1 = e.1) → l.foldl qmInsert m = m := by
  intro l
  induction l with
  | nil => intro m _; rfl
  | cons a tl ih =>
    intro m h
    rw [List.foldl_cons]
    have ha : qmInsert m a = m := by
      unfold qmInsert
      rw [if_pos ?_]
      rw [List.any_eq_true]
      obtain ⟨p, hp, hpk⟩ := h a (List.mem_cons_self a tl)
      exact ⟨p, hp, by simpa using hpk⟩
    rw [ha]
    exact ih m (fun e he => h e (List.mem_cons_of_mem a he))

lemma foldl_qmInsert_nodup :
    ∀ (l m : List (String × (QType × QuestionAnswer))),
      (l.map (·.1)).Nodup → (∀ e ∈ l, ¬ ∃ p ∈ m, p.1 = e.1) →
      l.foldl qmInsert m = m ++ l := by
  intro l
  induction l with
  | nil => intro m _ _; simp
  | cons a tl ih =>
    intro m hnd hdisj
    rw [List.foldl_cons]
    have ha : qmInsert m a = m ++ [a] := by
      unfold qmInsert
      rw [if_neg ?_]
      intro hc
      rw [List.any_eq_true] at hc
      obtain ⟨p, hp, hpk⟩ := hc
      exact hdisj a (List.mem_cons_self a tl) ⟨p, hp, by simpa using hpk⟩
    rw [ha]
    rw [List.map_cons, List.nodup_cons] at hnd
    rw [ih (m ++ [a]) hnd.2 ?_]
    · rw [List.append_assoc]
      rfl
    · intro e he ⟨p, hp, hpk⟩
      rcases List.mem_append.mp hp with hp' | hp'
      · exact hdisj e (List.mem_cons_of_mem a he) ⟨p, hp', hpk⟩
      · rw [List.mem_singleton.mp hp'] at hpk
        refine hnd.1 ?_
        rw [List.mem_map]
        exact ⟨e, he, hpk.symm⟩

lemma answerOccs_pair (a : AnswerRecognitionResponse) :
    answerOccs [a, a] = answerOccs [a] ++ answerOccs [a] := by
  unfold answerOccs
  simp

lemma buildQuestionMap_dup (a : AnswerRecognitionResponse) :
    buildQuestionMap [a, a] = buildQuestionMap [a] := by
  unfold buildQuestionMap
  rw [answerOccs_pair, List.foldl_append]
  exact foldl_qmInsert_absorb _ _
    (fun e he => foldl_qmInsert_keys _ [] e he)

lemma answerOccs_single_values (a : AnswerRecognitionResponse) :
    (answerOccs [a]).map (·.2) = entriesOf a := by
  unfold answerOccs entriesOf
  simp only [List.flatMap_cons, List.flatMap_nil, List.append_nil,
    List.map_flatMap, List.map_map]
  rfl

lemma mem_typesInOrder (l : List (QType × QuestionAnswer)) (t : QType) :
    t ∈ typesInOrder l ↔ t ∈ l.map (·.1) := by
  suffices h : ∀ (l : List (QType × QuestionAnswer)) (acc : List QType)
      (t : QType),
      (t ∈ l.foldl
        (fun acc e => if acc.contains e.1 then acc else acc ++ [e.1]) acc ↔
      t ∈ acc ∨ t ∈ l.map (·.1)) by
    unfold typesInOrder
    rw [h l [] t]
    simp
  intro l
  induction l with
  | nil => intro acc t; simp
  | cons e tl ih =>
    intro acc t
    rw [List.foldl_cons]
    by_cases hc : acc.contains e.1
    · rw [if_pos hc]
      rw [ih]
      simp only [List.map_cons, List.mem_cons]
      constructor
      · rintro (h | h)
        · exact Or.inl h
        · exact Or.inr (Or.inr h)
      · rintro (h | h | h)
        · exact Or.inl h
        · subst h
          exact Or.inl (by simpa using hc)
        · exact Or.inr h
    · rw [if_neg hc]
      rw [ih]
      simp only [List.mem_append, List.mem_singleton, List.map_cons,
        List.mem_cons]
      tauto

lemma mem_questionsOfType (l : List (QType × QuestionAnswer)) (t : QType)
    (q : QuestionAnswer) : q ∈ questionsOfType l t ↔ (t, q) ∈ l := by
  unfold questionsOfType
  rw [List.mem_map]
  constructor
  · rintro ⟨⟨t', q'⟩, he, rfl⟩
    rw [List.mem_filter] at he
    have ht : t' = t := by simpa using he.2
    subst ht
    exact he.1
  · intro h
    exact ⟨(t, q), List.mem_filter.mpr ⟨h, by simp⟩, rfl⟩

lemma mergeAnswerRecognition_regions (rs : List AnswerRecognitionResponse) :
    (mergeAnswerRecognition rs).regions =
      ((typesInOrder ((buildQuestionMap rs).map (·.2))).map fun t =>
        ({ type := t
           region := ((((buildRegionMap rs).find?
             (fun p => p.1 == t)).map (·.2)).getD
             { type := t, x_min_percent := 0, y_min_percent := 0
               x_max_percent := 100, y_max_percent := 100 })
           questions := (questionsOfType ((buildQuestionMap rs).map (·.2))
             t).mergeSort qaLe } : RegionAnswerResult)).mergeSort
        regionLe := rfl

lemma entriesOf_merge_mem (rs : List AnswerRecognitionResponse)
    (e : QType × QuestionAnswer) :
    e ∈ entriesOf (mergeAnswerRecognition rs) ↔
      e ∈ (buildQuestionMap rs).map (·.2) := by
  unfold entriesOf
  rw [mergeAnswerRecognition_regions]
  rw [List.mem_flatMap]
  constructor
  · rintro ⟨r, hr, hq⟩
    rw [(List.mergeSort_perm _ _).mem_iff, List.mem_map] at hr
    obtain ⟨t, ht, rfl⟩ := hr
    rw [List.mem_map] at hq
    obtain ⟨q, hq, rfl⟩ := hq
    rw [(List.mergeSort_perm _ _).mem_iff, mem_questionsOfType] at hq
    exact hq
  · intro he
    obtain ⟨t0, q0⟩ := e
    have ht : t0 ∈ typesInOrder ((buildQuestionMap rs).map (·.2)) := by
      rw [mem_typesInOrder, List.mem_map]
      exact ⟨(t0, q0), he, rfl⟩
    refine ⟨{ type := t0
              region := ((((buildRegionMap rs).find?
                (fun p => p.1 == t0)).map (·.2)).getD
                { type := t0, x_min_percent := 0, y_min_percent := 0
                  x_max_percent := 100, y_max_percent := 100 })
              questions := (questionsOfType ((buildQuestionMap rs).map (·.2))
                t0).mergeSort qaLe }, ?_, ?_⟩
    · rw [(List.mergeSort_perm _ _).mem_iff, List.mem_map]
      exact ⟨t0, ht, rfl⟩
    · rw [List.mem_map]
      refine ⟨q0, ?_, rfl⟩
      rw [(List.mergeSort_perm _ _).mem_iff, mem_questionsOfType]
      exact he

unseal Rat.sub Rat.mul Rat.add Rat.ofScientific in
/-- C6 (counterexample): the dedup key is the *string*
`` `${type}_${question_number}` ``, so the numeric question number `1` and
the string question number `"1"` collide; merging a result containing
both with itself drops one of the two distinct `(type, question_number,
answer)` entries, so the merged question set differs from the input's. -/
theorem C6_counterexample :
    (QType.choice, (⟨QNum.str "1", "b"⟩ : QuestionAnswer)) ∈
      entriesOf ⟨[⟨QType.choice, ⟨QType.choice, 0, 0, 100, 100⟩,
        [⟨QNum.num 1, "a"⟩, ⟨QNum.str "1", "b"⟩]⟩]⟩ ∧
    (QType.choice, (⟨QNum.str "1", "b"⟩ : QuestionAnswer)) ∉
      entriesOf (mergeAnswerRecognition
        [⟨[⟨QType.choice, ⟨QType.choice, 0, 0, 100, 100⟩,
          [⟨QNum.num 1, "a"⟩, ⟨QNum.str "1", "b"⟩]⟩]⟩,
         ⟨[⟨QType.choice, ⟨QType.choice, 0, 0, 100, 100⟩,
          [⟨QNum.num 1, "a"⟩, ⟨QNum.str "1", "b"⟩]⟩]⟩]) := by
  constructor
  · decide
  · rw [entriesOf_merge_mem]
    decide

/-- C6 (amended): whenever the entries of `A` have pairwise-distinct
dedup keys (no two entries share `` `${type}_${String(question_number)}` ``
— in particular no numeric/string collision like `1` vs `"1"`),
`mergeAnswerRecognition [A, A]` contains exactly the same
`(type, question)` entries as `A`: nothing is dropped, duplicated or
overwritten. -/
theorem C6_theorem (A : AnswerRecognitionResponse)
    (hnd : ((answerOccs [A]).map (·.1)).Nodup) :
    ∀ e, e ∈ entriesOf (mergeAnswerRecognition [A, A]) ↔ e ∈ entriesOf A := by
  intro e
  rw [entriesOf_merge_mem, buildQuestionMap_dup]
  have hb : buildQuestionMap [A] = answerOccs [A] := by
    unfold buildQuestionMap
    rw [foldl_qmInsert_nodup _ [] hnd (by simp)]
    rfl
  rw [hb, answerOccs_single_values]

unseal Rat.sub Rat.mul Rat.add Rat.ofScientific in
/-- C6 witness: a result with two distinct-keyed questions merged with
itself keeps exactly its entry set. -/
theorem C6_witness :
    ((answerOccs [⟨[⟨QType.choice, ⟨QType.choice, 0, 0, 100, 100⟩,
        [⟨QNum.num 1, "a"⟩, ⟨QNum.num 2, "b"⟩]⟩]⟩]).map (·.1)).Nodup ∧
    ((QType.choice, (⟨QNum.num 1, "a"⟩ : QuestionAnswer)) ∈
      entriesOf (mergeAnswerRecognition
        [⟨[⟨QType.choice, ⟨QType.choice, 0, 0, 100, 100⟩,
          [⟨QNum.num 1, "a"⟩, ⟨QNum.num 2, "b"⟩]⟩]⟩,
         ⟨[⟨QType.choice, ⟨QType.choice, 0, 0, 100, 100⟩,
          [⟨QNum.num 1, "a"⟩, ⟨QNum.num 2, "b"⟩]⟩]⟩]) ↔
      (QType.choice, (⟨QNum.num 1, "a"⟩ : QuestionAnswer)) ∈
        entriesOf ⟨[⟨QType.choice, ⟨QType.choice, 0, 0, 100, 100⟩,
          [⟨QNum.num 1, "a"⟩, ⟨QNum.num 2, "b"⟩]⟩]⟩) := by
  refine ⟨by decide, ?_⟩
  exact C6_theorem ⟨[⟨QType.choice, ⟨QType.choice, 0, 0, 100, 100⟩,
    [⟨QNum.num 1, "a"⟩, ⟨QNum.num 2, "b"⟩]⟩]⟩ (by decide)
    (QType.choice, (⟨QNum.num 1, "a"⟩ : QuestionAnswer))

end GradingAgent
